import Mathlib

/-!
Verification development for the pysshutil repository.

The cache in sshutil/conn.py (class SSHConnection) maintains three
class-level dictionaries guarded by one lock:
  ssh_sockets         : key string -> list of entries [ossock, sshsock, count]
  ssh_socket_keys     : sshsock -> key string (reverse map)
  ssh_socket_timeout  : sshsock -> pending close timer

We embed the dictionaries as association lists, OS sockets and SSH
transports as numeric handles allocated from a `nextId` counter, and each
cache operation as a pure state transformer.  Timer firing and socket
teardown record the closed handles in a `closed` field so that "never
closes synchronously" is expressible.
-/

namespace Sshutil

/-- sshutil/conn.py: MAXSSHBUF = 16 * 1024 -/
def MAXSSHBUF : Nat := 16 * 1024

/-- sshutil/conn.py: MAXCHANNELS = 8 (counts are Python ints, embedded as Int) -/
def MAXCHANNELS : Int := 8

/-- conn.py line 107: key = "{h}:{p}:{u}" rendered with str.format -/
def sshKey (host : String) (port : Nat) (username : String) : String :=
  host ++ ":" ++ toString port ++ ":" ++ username

/-- Association-list lookup (Python dict read `m[k]` / `k in m`). -/
def dlookup {α β : Type} [DecidableEq α] (k : α) : List (α × β) → Option β
  | [] => none
  | (k2, v) :: rest => if k2 = k then some v else dlookup k rest

/-- Association-list store (Python dict write `m[k] = v`). -/
def dstore {α β : Type} [DecidableEq α] (k : α) (v : β) : List (α × β) → List (α × β)
  | [] => [(k, v)]
  | (k2, v2) :: rest => if k2 = k then (k, v) :: rest else (k2, v2) :: dstore k v rest

/-- One pool entry: the Python list [ossock, sshsock, count]. -/
structure Entry where
  ossock : Nat
  sshsock : Nat
  count : Int
deriving DecidableEq, Repr

/-- The class-level cache state of SSHConnection, plus a `closed` log of
handles whose .close() was called and a `nextId` counter supplying fresh
OS-socket/transport handles. -/
structure CacheState where
  ssh_sockets : List (String × List Entry)
  ssh_socket_keys : List (Nat × String)
  ssh_socket_timeout : List (Nat × Nat)
  closed : List Nat
  nextId : Nat
deriving DecidableEq, Repr

def initState : CacheState := ⟨[], [], [], [], 0⟩

/-- conn.py lines 110-120: scan the entry list in order; the first entry
with count < MAXCHANNELS gets its count incremented and its transport
returned. Returns none when no entry has a free channel. -/
def getFromEntries : List Entry → Option (List Entry × Nat)
  | [] => none
  | e :: rest =>
    if e.count < MAXCHANNELS then
      some (({ e with count := e.count + 1 }) :: rest, e.sshsock)
    else
      match getFromEntries rest with
      | some (rest2, t) => some (e :: rest2, t)
      | none => none

/-- conn.py lines 256-262 (inner loop of release_ssh_socket): find the
entry whose transport is `t` and decrement its count; also return the new
count. Returns none when no entry matches (Python raises KeyError). -/
def decEntries (t : Nat) : List Entry → Option (List Entry × Int)
  | [] => none
  | e :: rest =>
    if e.sshsock = t then
      some (({ e with count := e.count - 1 }) :: rest, e.count - 1)
    else
      match decEntries t rest with
      | some (rest2, c) => some (e :: rest2, c)
      | none => none

/-- conn.py lines 216-227: cancel_close_socket_expire. If a timer is
recorded for the transport, delete and cancel it. -/
def cancel_close_socket_expire (s : CacheState) (t : Nat) : CacheState :=
  match dlookup t s.ssh_socket_timeout with
  | none => s
  | some _ =>
    { s with ssh_socket_timeout := s.ssh_socket_timeout.filter (fun p => p.1 ≠ t) }

/-- Result of one auth attempt by the paramiko transport.  Both failure
constructors are paramiko AuthenticationException subclasses
(BadAuthenticationType derives from AuthenticationException). -/
inductive AuthAttemptResult
  | ok
  | authFailed
  | badAuthType
deriving DecidableEq, Repr

/-- Errors that can escape the transport-building block of get_ssh_socket
(conn.py lines 156-214): an SSH handshake failure (SSHException from
start_client / get_remote_server_key), an AuthenticationException, or the
failure of the `assert sshsock.is_authenticated()` at line 196. -/
inductive BuildErr
  | transportError
  | authError
  | assertError
deriving DecidableEq, Repr

/-- Auth methods in the order attempted, for trace statements. -/
inductive AuthMethod
  | password
  | publickey (idx : Nat)
deriving DecidableEq, Repr

/-- conn.py lines 186-195: the key loop.  `idx` is the enumerate index;
the singleton case is exactly idx = lastkey, where an auth failure is
re-raised instead of swallowed.  Returns the list of indices attempted
and either the final authenticated flag or the propagated failure. -/
def auth_publickey_tr (idx : Nat) : List AuthAttemptResult → List Nat × Except Unit Bool
  | [] => ([], Except.ok false)
  | [k] =>
    ([idx], match k with
            | AuthAttemptResult.ok => Except.ok true
            | _ => Except.error ())
  | k :: k2 :: rest =>
    match k with
    | AuthAttemptResult.ok => ([idx], Except.ok true)
    | _ =>
      let r := auth_publickey_tr (idx + 1) (k2 :: rest)
      (idx :: r.1, r.2)

/-- conn.py lines 175-196: the full auth sequence.  `pw` is none when no
password was supplied; otherwise the outcome of auth_password (failures
swallowed at lines 178-179).  The key list is the agent keys followed by
the process-global private_key when set (lines 182-185).  Returns the
trace of attempted methods and ok / the escaping error. -/
def authenticate (pw : Option AuthAttemptResult) (agentKeys : List AuthAttemptResult)
    (privateKey : Option AuthAttemptResult) : List AuthMethod × Except BuildErr Unit :=
  let pwStep : List AuthMethod × Bool :=
    match pw with
    | none => ([], false)
    | some AuthAttemptResult.ok => ([AuthMethod.password], true)
    | some _ => ([AuthMethod.password], false)
  if pwStep.2 then (pwStep.1, Except.ok ())
  else
    let keys := agentKeys ++ privateKey.toList
    let r := auth_publickey_tr 0 keys
    (pwStep.1 ++ r.1.map AuthMethod.publickey,
      match r.2 with
      | Except.ok true => Except.ok ()
      | Except.ok false => Except.error BuildErr.assertError
      | Except.error () => Except.error BuildErr.authError)

/-- Environment seen by one dial: whether start_client succeeds, the
supplied password's outcome, the agent keys, the global private key. -/
structure GetEnv where
  handshakeOk : Bool
  password : Option AuthAttemptResult
  agentKeys : List AuthAttemptResult
  privateKey : Option AuthAttemptResult
deriving DecidableEq, Repr

/-- Outcome of get_ssh_socket: a transport handle or a raised error. -/
inductive GetOutcome
  | success (t : Nat)
  | failure (e : BuildErr)
deriving DecidableEq, Repr

/-- Result of get_ssh_socket: final cache state, outcome, and whether the
freshly connected OS socket was closed on the failure path (conn.py line
212 runs ossock.close() only in the `except AuthenticationException`). -/
structure GetResult where
  state : CacheState
  result : GetOutcome
  ossockClosed : Bool
deriving DecidableEq, Repr

/-- conn.py lines 123-214: dial a new connection for `key`.  The claims
scope this to calls where the TCP connect succeeded, so the fresh handles
are always allocated; on any build failure the cache maps are untouched
and only an AuthenticationException closes the OS socket before the error
propagates. -/
def dial_new_socket (s : CacheState) (key : String) (env : GetEnv) : GetResult :=
  let ossock := s.nextId
  let sshsock := s.nextId + 1
  let sFail := { s with nextId := s.nextId + 2 }
  if env.handshakeOk = false then
    ⟨sFail, GetOutcome.failure BuildErr.transportError, false⟩
  else
    match (authenticate env.password env.agentKeys env.privateKey).2 with
    | Except.error e =>
      ⟨sFail, GetOutcome.failure e,
        match e with
        | BuildErr.authError => true
        | _ => false⟩
    | Except.ok () =>
      let prev := (dlookup key s.ssh_sockets).getD []
      ⟨{ s with
          ssh_sockets := dstore key (prev ++ [⟨ossock, sshsock, 1⟩]) s.ssh_sockets,
          ssh_socket_keys := (sshsock, key) :: s.ssh_socket_keys,
          nextId := s.nextId + 2 },
        GetOutcome.success sshsock, false⟩

/-- conn.py lines 104-214: get_ssh_socket.  Under the lock: if an entry
for the key has a free channel, increment it, cancel any close timer for
its transport and return it; otherwise dial a new connection, append a
fresh entry with count 1 and record the reverse mapping. -/
def get_ssh_socket (s : CacheState) (host : String) (port : Nat) (username : String)
    (env : GetEnv) : GetResult :=
  let key := sshKey host port username
  match dlookup key s.ssh_sockets with
  | some entries =>
    match getFromEntries entries with
    | some (entries2, t) =>
      let s2 := { s with ssh_sockets := dstore key entries2 s.ssh_sockets }
      ⟨cancel_close_socket_expire s2 t, GetOutcome.success t, false⟩
    | none => dial_new_socket s key env
  | none => dial_new_socket s key env

/-- conn.py lines 246-274: release_ssh_socket.  Find the key via the
reverse map, decrement the matching entry.  If the new count is nonzero
(Python truthiness) return; otherwise, when no timer is recorded yet,
start a one-shot threading.Timer(1, _close_socket_expire) and record it.
Returns none where Python would raise (transport not in the maps). -/
def release_ssh_socket (s : CacheState) (t : Nat) : Option CacheState :=
  match dlookup t s.ssh_socket_keys with
  | none => none
  | some key =>
    match dlookup key s.ssh_sockets with
    | none => none
    | some entries =>
      match decEntries t entries with
      | none => none
      | some (entries2, c) =>
        let s2 := { s with ssh_sockets := dstore key entries2 s.ssh_sockets }
        if c ≠ 0 then some s2
        else if (dlookup t s2.ssh_socket_timeout).isSome then some s2
        else some { s2 with ssh_socket_timeout := (t, 1) :: s2.ssh_socket_timeout }

/-- conn.py lines 276-302: _close_socket.  Close the transport and the OS
socket, drop the reverse mapping and remove the entry from the pool. -/
def _close_socket (s : CacheState) (t : Nat) : CacheState :=
  match dlookup t s.ssh_socket_keys with
  | none => s
  | some key =>
    match dlookup key s.ssh_sockets with
    | none => s
    | some entries =>
      match entries.find? (fun e => e.sshsock == t) with
      | none => s
      | some e =>
        { s with
          closed := s.closed ++ [e.sshsock, e.ossock],
          ssh_socket_keys := s.ssh_socket_keys.filter (fun p => p.1 ≠ t),
          ssh_sockets :=
            dstore key (entries.eraseP (fun e2 => e2.sshsock == t)) s.ssh_sockets }

/-- conn.py lines 229-244: _close_socket_expire, the timer callback.  It
re-checks its presence in the timer map under the lock before closing. -/
def _close_socket_expire (s : CacheState) (t : Nat) : CacheState :=
  match dlookup t s.ssh_socket_timeout with
  | none => s
  | some _ =>
    _close_socket
      { s with ssh_socket_timeout := s.ssh_socket_timeout.filter (fun p => p.1 ≠ t) } t

/-- Per-session state of an SSHConnection object: the chan and ssh
fields (conn.py lines 62-84). -/
structure SSHConnection where
  chan : Option Nat
  ssh : Option Nat
deriving DecidableEq, Repr

/-- conn.py lines 90-99: close.  Close and null the channel, then null
the ssh field before releasing the saved transport back to the cache. -/
def SSHConnection.close (c : SSHConnection) (s : CacheState) : SSHConnection × CacheState :=
  let c1 : SSHConnection := { c with chan := none }
  match c1.ssh with
  | none => (c1, s)
  | some t => (⟨none, none⟩, (release_ssh_socket s t).getD s)

/-- Iterated close: calling close() N times in a row. -/
def closeN : Nat → SSHConnection × CacheState → SSHConnection × CacheState
  | 0, p => p
  | n + 1, (c, s) => closeN n (c.close s)

/-!  Channel model for sshutil/cmd.py.  A paramiko channel is embedded as
the remaining stdout bytes, the remaining stderr bytes, the remote exit
status, and a log of the operations invoked on it, so that ordering
claims are expressible. -/

/-- One observable operation on the channel/session. -/
inductive ChanEvent
  | execEv (cmd : String)
  | recvExitEv
  | recvOutEv (size : Nat)
  | recvErrEv (size : Nat)
  | closeEv
deriving DecidableEq, Repr

structure ChanState where
  outData : List Char
  errData : List Char
  exitStatus : Int
  events : List ChanEvent
deriving DecidableEq, Repr

/-- chan.exec_command(cmd) -/
def exec_command (cmd : String) (st : ChanState) : ChanState :=
  { st with events := st.events ++ [ChanEvent.execEv cmd] }

/-- chan.recv_exit_status(): blocks for the remote exit and returns it. -/
def recv_exit_status (st : ChanState) : Int × ChanState :=
  (st.exitStatus, { st with events := st.events ++ [ChanEvent.recvExitEv] })

/-- chan.recv(size): up to `size` bytes of stdout; empty only at EOF. -/
def chanRecv (size : Nat) (st : ChanState) : List Char × ChanState :=
  (st.outData.take size,
   { st with outData := st.outData.drop size,
             events := st.events ++ [ChanEvent.recvOutEv size] })

/-- chan.recv_stderr(size): up to `size` bytes of stderr. -/
def chanRecvStderr (size : Nat) (st : ChanState) : List Char × ChanState :=
  (st.errData.take size,
   { st with errData := st.errData.drop size,
             events := st.events ++ [ChanEvent.recvErrEv size] })

/-- self.close() at the end of run_status_stderr (only the channel event
matters for the command claims). -/
def chanClose (st : ChanState) : ChanState :=
  { st with events := st.events ++ [ChanEvent.closeEv] }

/-- cmd.py lines 45-49: read_to_eof(chan.recv).  Calls recv with the
fixed MAXSSHBUF buffer until a zero-length read signals EOF. -/
def read_to_eof_out (st : ChanState) : List Char × ChanState :=
  let r := chanRecv MAXSSHBUF st
  if h : r.1 = [] then ([], r.2)
  else
    let rest := read_to_eof_out r.2
    (r.1 ++ rest.1, rest.2)
termination_by st.outData.length
decreasing_by
  have hne : st.outData ≠ [] := by
    intro he
    apply h
    show (chanRecv MAXSSHBUF st).1 = []
    simp [chanRecv, he]
  have hpos : 0 < st.outData.length := List.length_pos.mpr hne
  have hb : 0 < MAXSSHBUF := by decide
  show (chanRecv MAXSSHBUF st).2.outData.length < st.outData.length
  simp only [chanRecv, List.length_drop]
  omega

/-- cmd.py lines 149-150: read_to_eof(chan.recv_stderr). -/
def read_to_eof_err (st : ChanState) : List Char × ChanState :=
  let r := chanRecvStderr MAXSSHBUF st
  if h : r.1 = [] then ([], r.2)
  else
    let rest := read_to_eof_err r.2
    (r.1 ++ rest.1, rest.2)
termination_by st.errData.length
decreasing_by
  have hne : st.errData ≠ [] := by
    intro he
    apply h
    show (chanRecvStderr MAXSSHBUF st).1 = []
    simp [chanRecvStderr, he]
  have hpos : 0 < st.errData.length := List.length_pos.mpr hne
  have hb : 0 < MAXSSHBUF := by decide
  show (chanRecvStderr MAXSSHBUF st).2.errData.length < st.errData.length
  simp only [chanRecvStderr, List.length_drop]
  omega

/-- Number of recv calls read_to_eof makes to drain `len` bytes: one call
per full-or-partial buffer plus the final zero-length read. -/
def numReads (len : Nat) : Nat :=
  if len = 0 then 1 else numReads (len - MAXSSHBUF) + 1
termination_by len
decreasing_by
  have : 0 < MAXSSHBUF := by decide
  omega

/-- cmd.py lines 120-157: run_status_stderr.  Exec the command, collect
the exit status, drain stdout then stderr, return the triple; the
finally-block closes the session before returning. -/
def run_status_stderr (cmd : String) (st : ChanState) :
    (Int × List Char × List Char) × ChanState :=
  let st1 := exec_command cmd st
  let r2 := recv_exit_status st1
  let r3 := read_to_eof_out r2.2
  let r4 := read_to_eof_err r3.2
  ((r2.1, r3.1, r4.1), chanClose r4.2)

/-- cmd.py lines 35-42: CalledProcessError(code, command, output, error);
its exception args tuple is exactly those four values. -/
structure CalledProcessError where
  code : Int
  command : String
  output : List Char
  error : List Char
deriving DecidableEq, Repr

def CalledProcessError.args (e : CalledProcessError) :
    Int × String × List Char × List Char :=
  (e.code, e.command, e.output, e.error)

/-- cmd.py lines 159-180: run_stderr.  Run the command; raise
CalledProcessError(exit, cmd, stdout, stderr) when the status is nonzero,
otherwise return (stdout, stderr). -/
def run_stderr (cmd : String) (st : ChanState) :
    Except CalledProcessError (List Char × List Char) × ChanState :=
  let r := run_status_stderr cmd st
  let status := r.1.1
  let output := r.1.2.1
  let error_output := r.1.2.2
  if status ≠ 0 then
    (Except.error ⟨status, cmd, output, error_output⟩, r.2)
  else
    (Except.ok (output, error_output), r.2)

/-- cmd.py lines 200-216: run, which forwards to run_stderr and keeps
only stdout. -/
def run (cmd : String) (st : ChanState) :
    Except CalledProcessError (List Char) × ChanState :=
  let r := run_stderr cmd st
  match r.1 with
  | Except.error e => (Except.error e, r.2)
  | Except.ok p => (Except.ok p.1, r.2)

/-!  Endpoint identity for claim C5.  SSHCommand (cmd.py lines 78-108)
accepts host, port, username, password and proxycmd; the cache key that
get_ssh_socket computes at conn.py line 107 uses only host, port and
username. -/

/-- The endpoint-identifying arguments of one get request. -/
structure Request where
  host : String
  port : Nat
  username : String
  proxycmd : Option String
deriving DecidableEq, Repr

/-- The key get_ssh_socket files the request under (conn.py line 107). -/
def requestKey (r : Request) : String :=
  sshKey r.host r.port r.username

/-!  Server dual bind for claim C9 (server.py lines 375-383). -/

/-- errno.EADDRINUSE on Linux. -/
def EADDRINUSE : Nat := 98

/-- server.py lines 378-383: the second (IPv4) listener bind wrapped in
try/except socket.error.  `err` is none when the bind succeeds, otherwise
the errno of the raised socket.error.  The except body is
`if error.errno == errno.EADDRINUSE: pass` followed by an unconditional
`raise`, so both branches of the errno test re-raise the error. -/
def second_bind (err : Option Nat) : Except Nat Unit :=
  match err with
  | none => Except.ok ()
  | some eno =>
    if eno = EADDRINUSE then Except.error eno else Except.error eno

/-!  Structural lemmas about the association-list embedding. -/

section AssocLemmas

variable {α β : Type} [DecidableEq α]

theorem dlookup_eq_none_iff (k : α) (m : List (α × β)) :
    dlookup k m = none ↔ ∀ p ∈ m, p.1 ≠ k := by
  induction m with
  | nil => simp [dlookup]
  | cons a rest ih =>
    by_cases h : a.1 = k
    · simp [dlookup, h]
    · simp only [dlookup, h, if_neg, List.mem_cons]
      constructor
      · intro hl p hp
        rcases hp with rfl | hp
        · exact h
        · exact (ih.mp hl) p hp
      · intro hall
        exact ih.mpr (fun p hp => hall p (Or.inr hp))

theorem dlookup_mem (k : α) (v : β) (m : List (α × β)) (h : dlookup k m = some v) :
    (k, v) ∈ m := by
  induction m with
  | nil => simp [dlookup] at h
  | cons a rest ih =>
    obtain ⟨ka, va⟩ := a
    by_cases ha : ka = k
    · subst ha
      simp [dlookup] at h
      simp [h]
    · simp [dlookup, ha] at h
      exact List.mem_cons_of_mem _ (ih h)

theorem dlookup_dstore_self (k : α) (v : β) (m : List (α × β)) :
    dlookup k (dstore k v m) = some v := by
  induction m with
  | nil => simp [dlookup, dstore]
  | cons a rest ih =>
    by_cases ha : a.1 = k
    · cases a; simp_all [dlookup, dstore]
    · cases a; simp_all [dlookup, dstore]

theorem dlookup_dstore_ne (k k2 : α) (v : β) (m : List (α × β)) (h : k2 ≠ k) :
    dlookup k2 (dstore k v m) = dlookup k2 m := by
  induction m with
  | nil => simp [dlookup, dstore, Ne.symm h]
  | cons a rest ih =>
    obtain ⟨ka, va⟩ := a
    by_cases ha : ka = k
    · subst ha
      simp [dstore, dlookup, Ne.symm h]
    · by_cases hb : ka = k2
      · subst hb
        simp [dstore, ha, dlookup]
      · simp [dstore, ha, dlookup, hb, ih]

/-- When the key is present and keys are nodup, dstore splits the list. -/
theorem dstore_split (k : α) (v0 : β) (m : List (α × β))
    (hnd : (m.map Prod.fst).Nodup) (hl : dlookup k m = some v0) :
    ∃ m1 m2, m = m1 ++ (k, v0) :: m2 ∧ (∀ p ∈ m1, p.1 ≠ k) ∧ (∀ p ∈ m2, p.1 ≠ k) ∧
      ∀ v : β, dstore k v m = m1 ++ (k, v) :: m2 := by
  induction m with
  | nil => simp [dlookup] at hl
  | cons a rest ih =>
    obtain ⟨ka, va⟩ := a
    by_cases ha : ka = k
    · subst ha
      simp only [dlookup, if_pos rfl] at hl
      obtain rfl : va = v0 := by injection hl
      refine ⟨[], rest, by simp, by simp, ?_, ?_⟩
      · intro p hp hpk
        simp only [List.map_cons, List.nodup_cons] at hnd
        exact hnd.1 (hpk ▸ List.mem_map_of_mem Prod.fst hp)
      · intro v
        simp [dstore]
    · simp only [dlookup, ha, ite_false, if_neg, not_false_iff] at hl
      simp only [List.map_cons, List.nodup_cons] at hnd
      obtain ⟨m1, m2, hm, h1, h2, hs⟩ := ih hnd.2 hl
      refine ⟨(ka, va) :: m1, m2, by simp [hm], ?_, h2, ?_⟩
      · intro p hp
        rcases List.mem_cons.mp hp with rfl | hp
        · exact ha
        · exact h1 p hp
      · intro v
        simp [dstore, ha, hs v]

/-- When the key is absent, dstore appends at the end. -/
theorem dstore_append (k : α) (v : β) (m : List (α × β)) (hl : dlookup k m = none) :
    dstore k v m = m ++ [(k, v)] := by
  induction m with
  | nil => simp [dstore]
  | cons a rest ih =>
    by_cases ha : a.1 = k
    · cases a; simp_all [dlookup]
    · cases a
      simp only [dlookup, ha, if_neg] at hl
      simp_all [dstore]

theorem dlookup_filter_self (t : α) (m : List (α × β)) :
    dlookup t (m.filter (fun p => p.1 ≠ t)) = none := by
  rw [dlookup_eq_none_iff]
  intro p hp
  have := List.of_mem_filter hp
  simpa using this

theorem dlookup_filter_ne (t t2 : α) (m : List (α × β)) (h : t2 ≠ t) :
    dlookup t2 (m.filter (fun p => p.1 ≠ t)) = dlookup t2 m := by
  induction m with
  | nil => simp [dlookup]
  | cons a rest ih =>
    obtain ⟨ka, va⟩ := a
    by_cases ha : ka = t
    · subst ha
      simp only [ne_eq, decide_not] at ih ⊢
      simp [List.filter_cons, dlookup, ih, Ne.symm h]
    · by_cases hb : ka = t2
      · subst hb
        simp [List.filter_cons, ha, dlookup]
      · simp only [ne_eq, decide_not] at ih ⊢
        simp [List.filter_cons, ha, dlookup, hb, ih]

end AssocLemmas

/-!  Characterizations of the first-fit scan and the release scan. -/

theorem getFromEntries_app (pre : List Entry) (e : Entry) (post : List Entry)
    (hpre : ∀ x ∈ pre, ¬x.count < MAXCHANNELS) (he : e.count < MAXCHANNELS) :
    getFromEntries (pre ++ e :: post) =
      some (pre ++ ({ e with count := e.count + 1 }) :: post, e.sshsock) := by
  induction pre with
  | nil => simp [getFromEntries, he]
  | cons a pre ih =>
    have ha : ¬a.count < MAXCHANNELS := hpre a (List.mem_cons_self a pre)
    have ih2 := ih (fun x hx => hpre x (List.mem_cons_of_mem a hx))
    simp [getFromEntries, ha, ih2]

theorem getFromEntries_none_iff (l : List Entry) :
    getFromEntries l = none ↔ ∀ x ∈ l, ¬x.count < MAXCHANNELS := by
  induction l with
  | nil => simp [getFromEntries]
  | cons e rest ih =>
    by_cases he : e.count < MAXCHANNELS
    · simp [getFromEntries, he]
    · constructor
      · intro h x hx
        rcases List.mem_cons.mp hx with rfl | hx
        · exact he
        · refine (ih.mp ?_) x hx
          cases hr : getFromEntries rest with
          | none => rfl
          | some r =>
            obtain ⟨l2, t⟩ := r
            simp [getFromEntries, he, hr] at h
      · intro h
        have hrest : getFromEntries rest = none :=
          ih.mpr (fun x hx => h x (List.mem_cons_of_mem e hx))
        simp [getFromEntries, he, hrest]

theorem getFromEntries_inv (l l2 : List Entry) (t : Nat)
    (h : getFromEntries l = some (l2, t)) :
    ∃ pre e post, l = pre ++ e :: post ∧ (∀ x ∈ pre, ¬x.count < MAXCHANNELS) ∧
      e.count < MAXCHANNELS ∧ l2 = pre ++ ({ e with count := e.count + 1 }) :: post ∧
      t = e.sshsock := by
  induction l generalizing l2 t with
  | nil => simp [getFromEntries] at h
  | cons e rest ih =>
    by_cases he : e.count < MAXCHANNELS
    · simp only [getFromEntries] at h
      rw [if_pos he] at h
      simp only [Option.some.injEq, Prod.mk.injEq] at h
      exact ⟨[], e, rest, by simp, by simp, he, h.1.symm, h.2.symm⟩
    · simp only [getFromEntries, if_neg he] at h
      cases hr : getFromEntries rest with
      | none => rw [hr] at h; simp at h
      | some r =>
        obtain ⟨l2', t'⟩ := r
        rw [hr] at h
        simp only [Option.some.injEq, Prod.mk.injEq] at h
        obtain ⟨h1, h2⟩ := h
        obtain ⟨pre, e2, post, hl, hp, he2, hl2, ht2⟩ := ih l2' t' hr
        refine ⟨e :: pre, e2, post, by simp [hl], ?_, he2, ?_, ?_⟩
        · intro x hx
          rcases List.mem_cons.mp hx with rfl | hx
          · exact he
          · exact hp x hx
        · rw [← h1, hl2]
          simp
        · rw [← h2, ht2]

theorem decEntries_app (t : Nat) (pre : List Entry) (e : Entry) (post : List Entry)
    (hpre : ∀ x ∈ pre, x.sshsock ≠ t) (he : e.sshsock = t) :
    decEntries t (pre ++ e :: post) =
      some (pre ++ ({ e with count := e.count - 1 }) :: post, e.count - 1) := by
  induction pre with
  | nil => simp [decEntries, he]
  | cons a pre ih =>
    have ha : a.sshsock ≠ t := hpre a (List.mem_cons_self a pre)
    have ih2 := ih (fun x hx => hpre x (List.mem_cons_of_mem a hx))
    simp [decEntries, ha, ih2]

theorem decEntries_inv (t : Nat) (l l2 : List Entry) (c : Int)
    (h : decEntries t l = some (l2, c)) :
    ∃ pre e post, l = pre ++ e :: post ∧ (∀ x ∈ pre, x.sshsock ≠ t) ∧
      e.sshsock = t ∧ l2 = pre ++ ({ e with count := e.count - 1 }) :: post ∧
      c = e.count - 1 := by
  induction l generalizing l2 c with
  | nil => simp [decEntries] at h
  | cons e rest ih =>
    by_cases he : e.sshsock = t
    · simp only [decEntries] at h
      rw [if_pos he] at h
      simp only [Option.some.injEq, Prod.mk.injEq] at h
      exact ⟨[], e, rest, by simp, by simp, he, h.1.symm, h.2.symm⟩
    · simp only [decEntries, if_neg he] at h
      cases hr : decEntries t rest with
      | none => rw [hr] at h; simp at h
      | some r =>
        obtain ⟨l2', c'⟩ := r
        rw [hr] at h
        simp only [Option.some.injEq, Prod.mk.injEq] at h
        obtain ⟨h1, h2⟩ := h
        obtain ⟨pre, e2, post, hl, hp, he2, hl2, hc2⟩ := ih l2' c' hr
        refine ⟨e :: pre, e2, post, by simp [hl], ?_, he2, ?_, ?_⟩
        · intro x hx
          rcases List.mem_cons.mp hx with rfl | hx
          · exact he
          · exact hp x hx
        · rw [← h1, hl2]
          simp
        · rw [← h2, hc2]

/-!  Draining lemmas for read_to_eof: the loop returns all remaining data,
leaves the stream empty, and logs one recv per full-or-partial buffer plus
the final zero-length read, every recv with the fixed MAXSSHBUF size. -/

theorem numReads_zero : numReads 0 = 1 := by
  rw [numReads]
  simp

theorem numReads_pos (n : Nat) (h : n ≠ 0) :
    numReads n = numReads (n - MAXSSHBUF) + 1 := by
  rw [numReads]
  simp [h]

theorem read_to_eof_out_spec (st : ChanState) :
    read_to_eof_out st = (st.outData,
      { st with
          outData := []
          events := st.events ++
            List.replicate (numReads st.outData.length) (ChanEvent.recvOutEv MAXSSHBUF) }) := by
  generalize hn : st.outData.length = n
  induction n using Nat.strong_induction_on generalizing st with
  | _ n ih =>
    rw [read_to_eof_out]
    by_cases hout : st.outData = []
    · have hn0 : n = 0 := by rw [← hn, hout]; rfl
      subst hn0
      rw [dif_pos (by simp [chanRecv, hout])]
      simp [chanRecv, hout, numReads_zero]
    · have hlen : 0 < st.outData.length := List.length_pos.mpr hout
      have htake : (chanRecv MAXSSHBUF st).1 ≠ [] := by
        simp only [chanRecv]
        simp [List.take_eq_nil_iff, hout, MAXSSHBUF]
      rw [dif_neg htake]
      have hbuf : 0 < MAXSSHBUF := by decide
      have hrec := ih ((chanRecv MAXSSHBUF st).2.outData.length)
        (by simp only [chanRecv, List.length_drop]; omega)
        (chanRecv MAXSSHBUF st).2 rfl
      rw [hrec]
      simp only [chanRecv, List.length_drop]
      rw [Prod.mk.injEq]
      constructor
      · exact List.take_append_drop MAXSSHBUF st.outData
      · have hn2 : numReads n = numReads (st.outData.length - MAXSSHBUF) + 1 := by
          rw [← hn]
          exact numReads_pos _ (by omega)
        rw [hn2, List.replicate_succ, List.append_assoc]
        rfl

theorem read_to_eof_err_spec (st : ChanState) :
    read_to_eof_err st = (st.errData,
      { st with
          errData := []
          events := st.events ++
            List.replicate (numReads st.errData.length) (ChanEvent.recvErrEv MAXSSHBUF) }) := by
  generalize hn : st.errData.length = n
  induction n using Nat.strong_induction_on generalizing st with
  | _ n ih =>
    rw [read_to_eof_err]
    by_cases herr : st.errData = []
    · have hn0 : n = 0 := by rw [← hn, herr]; rfl
      subst hn0
      rw [dif_pos (by simp [chanRecvStderr, herr])]
      simp [chanRecvStderr, herr, numReads_zero]
    · have hlen : 0 < st.errData.length := List.length_pos.mpr herr
      have htake : (chanRecvStderr MAXSSHBUF st).1 ≠ [] := by
        simp only [chanRecvStderr]
        simp [List.take_eq_nil_iff, herr, MAXSSHBUF]
      rw [dif_neg htake]
      have hbuf : 0 < MAXSSHBUF := by decide
      have hrec := ih ((chanRecvStderr MAXSSHBUF st).2.errData.length)
        (by simp only [chanRecvStderr, List.length_drop]; omega)
        (chanRecvStderr MAXSSHBUF st).2 rfl
      rw [hrec]
      simp only [chanRecvStderr, List.length_drop]
      rw [Prod.mk.injEq]
      constructor
      · exact List.take_append_drop MAXSSHBUF st.errData
      · have hn2 : numReads n = numReads (st.errData.length - MAXSSHBUF) + 1 := by
          rw [← hn]
          exact numReads_pos _ (by omega)
        rw [hn2, List.replicate_succ, List.append_assoc]
        rfl

/-- Closed form of run_status_stderr: the triple is the exit status with
the fully drained stdout and stderr, and the event log is exec, then
recv_exit_status, then the stdout reads, then the stderr reads, then the
close — every read with the fixed MAXSSHBUF size. -/
theorem run_status_stderr_spec (cmd : String) (st : ChanState) :
    run_status_stderr cmd st =
      ((st.exitStatus, st.outData, st.errData),
       { st with
           outData := []
           errData := []
           events := st.events ++
             [ChanEvent.execEv cmd, ChanEvent.recvExitEv] ++
             List.replicate (numReads st.outData.length) (ChanEvent.recvOutEv MAXSSHBUF) ++
             List.replicate (numReads st.errData.length) (ChanEvent.recvErrEv MAXSSHBUF) ++
             [ChanEvent.closeEv] }) := by
  simp only [run_status_stderr, exec_command, recv_exit_status, read_to_eof_out_spec,
    read_to_eof_err_spec, chanClose]
  simp [List.append_assoc]

/-- Close of an already-closed session is the identity on session and
cache, for any number of iterations. -/
theorem closeN_closed (n : Nat) (s : CacheState) :
    closeN n ((⟨none, none⟩ : SSHConnection), s) = (⟨none, none⟩, s) := by
  induction n generalizing s with
  | zero => rfl
  | succ n ih =>
    show closeN n (SSHConnection.close ⟨none, none⟩ s) = _
    exact ih s

/-- C4: for every session and every N ≥ 1, calling close() N times equals
calling it once: the session ends with both the channel and the
transport-handle field nulled, and the cache sees exactly one
release_ssh_socket of the saved transport. -/
theorem claim_C4_close_releases_once (c : SSHConnection) (s : CacheState) (t : Nat)
    (N : Nat) (hn : 1 ≤ N) (ht : c.ssh = some t) :
    closeN N (c, s) = (⟨none, none⟩, (release_ssh_socket s t).getD s) := by
  obtain ⟨n, rfl⟩ : ∃ n, N = n + 1 := ⟨N - 1, by omega⟩
  have h1 : SSHConnection.close c s = (⟨none, none⟩, (release_ssh_socket s t).getD s) := by
    simp [SSHConnection.close, ht]
  show closeN n (SSHConnection.close c s) = _
  rw [h1, closeN_closed]

/-- Witness for C4 at a concrete session, cache and N = 3. -/
theorem claim_C4_close_releases_once_witness :
    1 ≤ 3 ∧
    closeN 3 ((⟨some 5, some 1⟩ : SSHConnection), initState) =
      (⟨none, none⟩, (release_ssh_socket initState 1).getD initState) :=
  ⟨by decide, claim_C4_close_releases_once ⟨some 5, some 1⟩ initState 1 3 (by decide) rfl⟩

/-- C5 counterexample: the key computed by get_ssh_socket (conn.py line
107) is built from host, port and username only, so two requests that
differ in their proxy command still receive the same key — refuting the
claim that sharing eligibility requires agreement on all four components
including the proxy command. -/
theorem claim_C5_counterexample :
    requestKey ⟨"h", 22, "u", none⟩ = requestKey ⟨"h", 22, "u", some "ssh gw nc"⟩ ∧
    (Request.mk "h" 22 "u" none).proxycmd ≠
      (Request.mk "h" 22 "u" (some "ssh gw nc")).proxycmd :=
  ⟨rfl, by simp⟩

/-- C5 (amended): the endpoint key is the string host:port:username built
from three components; requests agreeing on host, port and username get
equal keys, and the proxy command never influences the key. -/
theorem claim_C5_key_three_components (r1 r2 : Request)
    (hh : r1.host = r2.host) (hp : r1.port = r2.port) (hu : r1.username = r2.username) :
    requestKey r1 = requestKey r2 ∧
    ∀ pc : Option String, requestKey { r1 with proxycmd := pc } = requestKey r1 :=
  ⟨by simp [requestKey, sshKey, hh, hp, hu], fun _ => rfl⟩

/-- Witness for C5's amended theorem at concrete requests. -/
theorem claim_C5_key_three_components_witness :
    requestKey ⟨"h", 22, "u", none⟩ = requestKey ⟨"h", 22, "u", some "pc"⟩ :=
  (claim_C5_key_three_components ⟨"h", 22, "u", none⟩ ⟨"h", 22, "u", some "pc"⟩
    rfl rfl rfl).1

/-- The event order stated by claim C6 (modelled from the claim's words,
for comparison with the code): exec first, then the stdout reads with the
16 KiB buffer, then the stderr reads, then the exit-status collection,
then the close. -/
def claimedEventOrder (cmd : String) (evs : List ChanEvent) : Bool :=
  match evs with
  | ChanEvent.execEv c :: rest =>
    if c = cmd then
      let rest1 := rest.dropWhile (fun e =>
        match e with
        | ChanEvent.recvOutEv n => n == MAXSSHBUF
        | _ => false)
      let rest2 := rest1.dropWhile (fun e =>
        match e with
        | ChanEvent.recvErrEv n => n == MAXSSHBUF
        | _ => false)
      rest2 == [ChanEvent.recvExitEv, ChanEvent.closeEv]
    else false
  | _ => false

/-- C6 counterexample: on a channel with one byte of stdout the event log
of run_status_stderr does not match the claim's order, because the code
calls recv_exit_status before draining stdout and stderr (cmd.py line
146 precedes lines 148-150). -/
theorem claim_C6_counterexample :
    claimedEventOrder "c" (run_status_stderr "c" ⟨['h'], [], 0, []⟩).2.events = false := by
  have h1 : numReads 1 = 2 := by
    rw [numReads_pos 1 (by decide), show (1 : Nat) - MAXSSHBUF = 0 from by decide,
      numReads_zero]
  rw [run_status_stderr_spec]
  simp [h1, numReads_zero, claimedEventOrder]

/-- C6 (amended): run_status_stderr execs the command, collects the
remote exit code, then reads stdout to EOF, then stderr to EOF, each with
the fixed 16 KiB buffer and only a zero-length read ending a stream,
returns the triple (exit, stdout, stderr) fully drained, and closes the
session before returning. -/
theorem claim_C6_run_status_stderr (cmd : String) (st : ChanState) :
    (run_status_stderr cmd st).1 = (st.exitStatus, st.outData, st.errData) ∧
    (run_status_stderr cmd st).2.outData = [] ∧
    (run_status_stderr cmd st).2.errData = [] ∧
    (run_status_stderr cmd st).2.events = st.events ++
      [ChanEvent.execEv cmd, ChanEvent.recvExitEv] ++
      List.replicate (numReads st.outData.length) (ChanEvent.recvOutEv MAXSSHBUF) ++
      List.replicate (numReads st.errData.length) (ChanEvent.recvErrEv MAXSSHBUF) ++
      [ChanEvent.closeEv] := by
  rw [run_status_stderr_spec]
  exact ⟨rfl, rfl, rfl, rfl⟩

/-- C9: server.py lines 378-383 evaluated at the failing input.  A second
(IPv4) bind failure with errno EADDRINUSE is re-raised — the `pass` in
the errno test is followed by an unconditional `raise` — so construction
fails instead of continuing with the single IPv6 listener; a successful
second bind returns normally. -/
theorem claim_C9_second_bind_eaddrinuse :
    second_bind (some EADDRINUSE) = Except.error EADDRINUSE ∧
    second_bind none = Except.ok () :=
  ⟨rfl, rfl⟩

/-- C10: run_stderr raises exactly when the remote exit status is
nonzero, the raised CalledProcessError carries args
(exit, command, stdout, stderr) with the fully drained streams, and a
zero exit returns (stdout, stderr); run behaves the same keeping stdout. -/
theorem claim_C10_run_stderr_raises_iff (cmd : String) (st : ChanState) :
    (st.exitStatus ≠ 0 →
      (run_stderr cmd st).1 =
        Except.error ⟨st.exitStatus, cmd, st.outData, st.errData⟩ ∧
      (run cmd st).1 =
        Except.error ⟨st.exitStatus, cmd, st.outData, st.errData⟩) ∧
    (st.exitStatus = 0 →
      (run_stderr cmd st).1 = Except.ok (st.outData, st.errData) ∧
      (run cmd st).1 = Except.ok st.outData) ∧
    (∀ e, (run_stderr cmd st).1 = Except.error e →
      st.exitStatus ≠ 0 ∧ e.args = (st.exitStatus, cmd, st.outData, st.errData)) := by
  refine ⟨?_, ?_, ?_⟩
  · intro h0
    constructor
    · simp [run_stderr, run_status_stderr_spec, h0]
    · simp [run, run_stderr, run_status_stderr_spec, h0]
  · intro h0
    constructor
    · simp [run_stderr, run_status_stderr_spec, h0]
    · simp [run, run_stderr, run_status_stderr_spec, h0]
  · intro e he
    by_cases h0 : st.exitStatus = 0
    · simp [run_stderr, run_status_stderr_spec, h0] at he
    · simp [run_stderr, run_status_stderr_spec, h0] at he
      exact ⟨h0, by rw [← he]; rfl⟩

/-- Witness for C10 at a concrete failing command and a succeeding one. -/
theorem claim_C10_run_stderr_raises_iff_witness :
    (2 : Int) ≠ 0 ∧
    (run_stderr "grep foobar doesnt-exist" ⟨[], ['e'], 2, []⟩).1 =
      Except.error ⟨2, "grep foobar doesnt-exist", [], ['e']⟩ ∧
    (run_stderr "true" ⟨[], [], 0, []⟩).1 = Except.ok ([], []) :=
  ⟨by decide,
   ((claim_C10_run_stderr_raises_iff "grep foobar doesnt-exist"
      ⟨[], ['e'], 2, []⟩).1 (by decide)).1,
   ((claim_C10_run_stderr_raises_iff "true" ⟨[], [], 0, []⟩).2.1 rfl).1⟩

/-- Field-level description of cancel_close_socket_expire: only the timer
map changes, the transport's timer is gone, all other timers survive. -/
theorem cancel_close_socket_expire_spec (s : CacheState) (t : Nat) :
    (cancel_close_socket_expire s t).ssh_sockets = s.ssh_sockets ∧
    (cancel_close_socket_expire s t).ssh_socket_keys = s.ssh_socket_keys ∧
    (cancel_close_socket_expire s t).closed = s.closed ∧
    (cancel_close_socket_expire s t).nextId = s.nextId ∧
    dlookup t (cancel_close_socket_expire s t).ssh_socket_timeout = none ∧
    ∀ t2, t2 ≠ t →
      dlookup t2 (cancel_close_socket_expire s t).ssh_socket_timeout =
        dlookup t2 s.ssh_socket_timeout := by
  cases h : dlookup t s.ssh_socket_timeout with
  | none =>
    have hc : cancel_close_socket_expire s t = s := by
      simp only [cancel_close_socket_expire, h]
    rw [hc]
    exact ⟨rfl, rfl, rfl, rfl, h, fun _ _ => rfl⟩
  | some v =>
    have hc : cancel_close_socket_expire s t =
        { s with ssh_socket_timeout := s.ssh_socket_timeout.filter (fun p => p.1 ≠ t) } := by
      simp only [cancel_close_socket_expire, h]
    rw [hc]
    exact ⟨rfl, rfl, rfl, rfl, dlookup_filter_self t _,
      fun t2 h2 => dlookup_filter_ne t t2 _ h2⟩

/-- A dial whose handshake and auth succeed appends the fresh entry with
count 1, records the reverse mapping, and returns the fresh transport. -/
theorem dial_new_socket_ok (s : CacheState) (key : String) (env : GetEnv)
    (hh : env.handshakeOk = true)
    (ha : (authenticate env.password env.agentKeys env.privateKey).2 = Except.ok ()) :
    dial_new_socket s key env =
      ⟨{ s with
          ssh_sockets := dstore key (((dlookup key s.ssh_sockets).getD []) ++
            [⟨s.nextId, s.nextId + 1, 1⟩]) s.ssh_sockets
          ssh_socket_keys := (s.nextId + 1, key) :: s.ssh_socket_keys
          nextId := s.nextId + 2 },
        GetOutcome.success (s.nextId + 1), false⟩ := by
  simp only [dial_new_socket, hh, ha]
  rw [if_neg (by decide)]

/-- A failing dial leaves every cache map untouched (only the handle
counter advanced), and closes the OS socket iff the failure was an
AuthenticationException. -/
theorem dial_new_socket_failure (s : CacheState) (key : String) (env : GetEnv)
    (e : BuildErr) (h : (dial_new_socket s key env).result = GetOutcome.failure e) :
    (dial_new_socket s key env).state = { s with nextId := s.nextId + 2 } ∧
    ((dial_new_socket s key env).ossockClosed = true ↔ e = BuildErr.authError) := by
  by_cases hh : env.handshakeOk = false
  · simp only [dial_new_socket, hh, if_pos] at h ⊢
    have he : e = BuildErr.transportError := by
      cases h2 : h
      rfl
    subst he
    simp
  · have hh2 : env.handshakeOk = true := by
      cases hb : env.handshakeOk
      · exact absurd hb hh
      · rfl
    cases ha : (authenticate env.password env.agentKeys env.privateKey).2 with
    | ok u =>
      cases u
      rw [dial_new_socket_ok s key env hh2 ha] at h
      exact absurd h (by simp)
    | error e2 =>
      simp only [dial_new_socket, hh2, ha] at h ⊢
      have he : e2 = e := by
        simp at h
        exact h
      subst he
      constructor
      · rfl
      · cases e2 <;> simp

/-- C7 counterexample: a get whose SSH handshake fails (a transport
error, not an AuthenticationException) propagates the error without
closing the freshly connected OS socket, because conn.py line 212 runs
ossock.close() only in the `except ssh.AuthenticationException` arm. -/
theorem claim_C7_counterexample :
    (get_ssh_socket initState "h" 22 "u" ⟨false, none, [], none⟩).result =
      GetOutcome.failure BuildErr.transportError ∧
    (get_ssh_socket initState "h" 22 "u" ⟨false, none, [], none⟩).ossockClosed = false :=
  ⟨rfl, rfl⟩

/-- C7 (amended): a failing get leaves no pool entry, reverse-map record
or timer in the cache, but the partially-opened byte stream is closed
before the error propagates only when the failure is an
AuthenticationException; handshake/transport errors leave it open. -/
theorem claim_C7_failing_get (s : CacheState) (host : String) (port : Nat)
    (username : String) (env : GetEnv) (e : BuildErr)
    (h : (get_ssh_socket s host port username env).result = GetOutcome.failure e) :
    (get_ssh_socket s host port username env).state.ssh_sockets = s.ssh_sockets ∧
    (get_ssh_socket s host port username env).state.ssh_socket_keys =
      s.ssh_socket_keys ∧
    (get_ssh_socket s host port username env).state.ssh_socket_timeout =
      s.ssh_socket_timeout ∧
    (get_ssh_socket s host port username env).state.closed = s.closed ∧
    ((get_ssh_socket s host port username env).ossockClosed = true ↔
      e = BuildErr.authError) := by
  cases hlk : dlookup (sshKey host port username) s.ssh_sockets with
  | none =>
    simp only [get_ssh_socket, hlk] at h ⊢
    obtain ⟨hstate, hiff⟩ := dial_new_socket_failure s _ env e h
    rw [hstate]
    exact ⟨rfl, rfl, rfl, rfl, hiff⟩
  | some entries =>
    cases hg : getFromEntries entries with
    | some r =>
      obtain ⟨entries2, t⟩ := r
      simp only [get_ssh_socket, hlk, hg] at h
      simp at h
    | none =>
      simp only [get_ssh_socket, hlk, hg] at h ⊢
      obtain ⟨hstate, hiff⟩ := dial_new_socket_failure s _ env e h
      rw [hstate]
      exact ⟨rfl, rfl, rfl, rfl, hiff⟩

/-- Witness for C7's amended theorem at a concrete handshake failure. -/
theorem claim_C7_failing_get_witness :
    (get_ssh_socket initState "h2" 22 "u2" ⟨false, none, [], none⟩).state.ssh_sockets =
      initState.ssh_sockets ∧
    ((get_ssh_socket initState "h2" 22 "u2" ⟨false, none, [], none⟩).ossockClosed = true ↔
      BuildErr.transportError = BuildErr.authError) :=
  ⟨(claim_C7_failing_get initState "h2" 22 "u2" ⟨false, none, [], none⟩
      BuildErr.transportError rfl).1,
   (claim_C7_failing_get initState "h2" 22 "u2" ⟨false, none, [], none⟩
      BuildErr.transportError rfl).2.2.2.2⟩

/-- The key loop tries keys in index order; with a failing prefix and a
succeeding key it swallows every prefix failure, attempts exactly the
indices up to the success and authenticates. -/
theorem auth_publickey_tr_success (i : Nat) (pre post : List AuthAttemptResult) :
    (∀ x ∈ pre, x ≠ AuthAttemptResult.ok) →
    auth_publickey_tr i (pre ++ AuthAttemptResult.ok :: post) =
      (List.range' i (pre.length + 1), Except.ok true) := by
  induction pre generalizing i with
  | nil =>
    intro _
    cases post with
    | nil => simp [auth_publickey_tr, List.range']
    | cons b post2 => simp [auth_publickey_tr, List.range']
  | cons a pre ih =>
    intro hpre
    have ha : a ≠ AuthAttemptResult.ok := hpre a (List.mem_cons_self a pre)
    have ih2 := ih (i + 1) (fun x hx => hpre x (List.mem_cons_of_mem a hx))
    simp only [List.length_cons, List.cons_append]
    rw [List.range'_succ i (pre.length + 1) 1]
    cases hsplit : pre ++ AuthAttemptResult.ok :: post with
    | nil => exact absurd hsplit (by simp)
    | cons b rest =>
      cases a with
      | ok => exact absurd rfl ha
      | authFailed =>
        show (i :: (auth_publickey_tr (i + 1) (b :: rest)).1,
              (auth_publickey_tr (i + 1) (b :: rest)).2) =
          (i :: List.range' (i + 1) (pre.length + 1) 1, Except.ok true)
        rw [← hsplit, ih2]
      | badAuthType =>
        show (i :: (auth_publickey_tr (i + 1) (b :: rest)).1,
              (auth_publickey_tr (i + 1) (b :: rest)).2) =
          (i :: List.range' (i + 1) (pre.length + 1) 1, Except.ok true)
        rw [← hsplit, ih2]

/-- When every key fails, the loop attempts every index in order and the
failure of the last key propagates. -/
theorem auth_publickey_tr_allfail (i : Nat) (l : List AuthAttemptResult) :
    l ≠ [] → (∀ x ∈ l, x ≠ AuthAttemptResult.ok) →
    auth_publickey_tr i l = (List.range' i l.length, Except.error ()) := by
  induction l generalizing i with
  | nil =>
    intro hne _
    exact absurd rfl hne
  | cons a rest ih =>
    intro _ hall
    have ha : a ≠ AuthAttemptResult.ok := hall a (List.mem_cons_self a rest)
    cases rest with
    | nil =>
      cases a with
      | ok => exact absurd rfl ha
      | authFailed => simp [auth_publickey_tr, List.range']
      | badAuthType => simp [auth_publickey_tr, List.range']
    | cons b rest2 =>
      have ih2 := ih (i + 1) (by simp)
        (fun x hx => hall x (List.mem_cons_of_mem a hx))
      cases a with
      | ok => exact absurd rfl ha
      | authFailed =>
        show (i :: (auth_publickey_tr (i + 1) (b :: rest2)).1,
              (auth_publickey_tr (i + 1) (b :: rest2)).2) = _
        rw [ih2]
        simp [List.range'_succ]
      | badAuthType =>
        show (i :: (auth_publickey_tr (i + 1) (b :: rest2)).1,
              (auth_publickey_tr (i + 1) (b :: rest2)).2) = _
        rw [ih2]
        simp [List.range'_succ]

/-- C8: the authenticator's fixed order.  (1) A supplied password that
succeeds authenticates with password alone and no key is tried.  (2) A
failing password attempt (AuthFailed or BadAuthType) is swallowed: the
run continues exactly as if no password had been supplied, with the
password attempt logged first.  (3) The keys tried are the agent keys
followed by the process-global private key, in index order.  (4) With a
failing prefix and then a succeeding key, the prefix failures are
swallowed and the loop stops at the success.  (5) When every key fails,
every key is attempted and the last key's failure propagates, surfacing
as the AuthenticationException of the whole sequence. -/
theorem claim_C8_auth_order :
    (∀ agent pkey, authenticate (some AuthAttemptResult.ok) agent pkey =
      ([AuthMethod.password], Except.ok ())) ∧
    (∀ r agent pkey,
      r = AuthAttemptResult.authFailed ∨ r = AuthAttemptResult.badAuthType →
      (authenticate (some r) agent pkey).1 =
        AuthMethod.password :: (authenticate none agent pkey).1 ∧
      (authenticate (some r) agent pkey).2 = (authenticate none agent pkey).2) ∧
    (∀ agent pkey, (authenticate none agent pkey).1 =
      (auth_publickey_tr 0 (agent ++ pkey.toList)).1.map AuthMethod.publickey) ∧
    (∀ i pre post, (∀ x ∈ pre, x ≠ AuthAttemptResult.ok) →
      auth_publickey_tr i (pre ++ AuthAttemptResult.ok :: post) =
        (List.range' i (pre.length + 1), Except.ok true)) ∧
    (∀ i l, l ≠ [] → (∀ x ∈ l, x ≠ AuthAttemptResult.ok) →
      auth_publickey_tr i l = (List.range' i l.length, Except.error ())) ∧
    (∀ agent pkey, agent ++ pkey.toList ≠ [] →
      (∀ x ∈ agent ++ pkey.toList, x ≠ AuthAttemptResult.ok) →
      (authenticate none agent pkey).2 = Except.error BuildErr.authError) := by
  refine ⟨?_, ?_, ?_, auth_publickey_tr_success, auth_publickey_tr_allfail, ?_⟩
  · intro agent pkey
    rfl
  · intro r agent pkey hr
    rcases hr with rfl | rfl
    · exact ⟨rfl, rfl⟩
    · exact ⟨rfl, rfl⟩
  · intro agent pkey
    rfl
  · intro agent pkey hne hall
    have h := auth_publickey_tr_allfail 0 (agent ++ pkey.toList) hne hall
    simp only [authenticate, h]
    rw [if_neg (by decide)]

/-- Witness for C8 at concrete credential sequences. -/
theorem claim_C8_auth_order_witness :
    authenticate (some AuthAttemptResult.ok) [AuthAttemptResult.authFailed] none =
      ([AuthMethod.password], Except.ok ()) ∧
    auth_publickey_tr 0
        ([AuthAttemptResult.authFailed] ++ AuthAttemptResult.ok :: []) =
      (List.range' 0 2, Except.ok true) ∧
    (authenticate none [AuthAttemptResult.authFailed]
        (some AuthAttemptResult.badAuthType)).2 = Except.error BuildErr.authError :=
  ⟨claim_C8_auth_order.1 [AuthAttemptResult.authFailed] none,
   claim_C8_auth_order.2.2.2.1 0 [AuthAttemptResult.authFailed] [] (by decide),
   claim_C8_auth_order.2.2.2.2.2 [AuthAttemptResult.authFailed]
     (some AuthAttemptResult.badAuthType) (by decide) (by decide)⟩

/-- C1: get_ssh_socket behavior.  Hit case: when the key's entry list
splits as pre ++ e :: post with every pre entry full and e.count below
MAXCHANNELS (the first-fit entry), the call returns e's existing
transport, increments exactly that entry's count by one, removes any
pending close timer for that transport (other timers untouched), records
no new reverse mapping, and dials nothing (the handle counter and closed
log are unchanged).  Miss case: when no entry has a free channel and the
build succeeds, the call returns a fresh transport, appends a new entry
with count 1 under the key, and records the reverse mapping. -/
theorem claim_C1_get_hit_or_dial (s : CacheState) (host : String) (port : Nat)
    (username : String) (env : GetEnv) :
    (∀ entries pre e post,
      dlookup (sshKey host port username) s.ssh_sockets = some entries →
      entries = pre ++ e :: post →
      (∀ x ∈ pre, ¬x.count < MAXCHANNELS) →
      e.count < MAXCHANNELS →
      (get_ssh_socket s host port username env).result = GetOutcome.success e.sshsock ∧
      (get_ssh_socket s host port username env).state.ssh_sockets =
        dstore (sshKey host port username)
          (pre ++ ({ e with count := e.count + 1 }) :: post) s.ssh_sockets ∧
      dlookup e.sshsock
        (get_ssh_socket s host port username env).state.ssh_socket_timeout = none ∧
      (∀ t2, t2 ≠ e.sshsock →
        dlookup t2 (get_ssh_socket s host port username env).state.ssh_socket_timeout =
          dlookup t2 s.ssh_socket_timeout) ∧
      (get_ssh_socket s host port username env).state.ssh_socket_keys =
        s.ssh_socket_keys ∧
      (get_ssh_socket s host port username env).state.nextId = s.nextId ∧
      (get_ssh_socket s host port username env).state.closed = s.closed) ∧
    ((∀ entries, dlookup (sshKey host port username) s.ssh_sockets = some entries →
        ∀ x ∈ entries, ¬x.count < MAXCHANNELS) →
      env.handshakeOk = true →
      (authenticate env.password env.agentKeys env.privateKey).2 = Except.ok () →
      (get_ssh_socket s host port username env).result =
        GetOutcome.success (s.nextId + 1) ∧
      (get_ssh_socket s host port username env).state.ssh_sockets =
        dstore (sshKey host port username)
          (((dlookup (sshKey host port username) s.ssh_sockets).getD []) ++
            [⟨s.nextId, s.nextId + 1, 1⟩]) s.ssh_sockets ∧
      (get_ssh_socket s host port username env).state.ssh_socket_keys =
        (s.nextId + 1, sshKey host port username) :: s.ssh_socket_keys ∧
      (get_ssh_socket s host port username env).state.ssh_socket_timeout =
        s.ssh_socket_timeout) := by
  constructor
  · intro entries pre e post hlk hsplit hpre hecount
    subst hsplit
    have hg := getFromEntries_app pre e post hpre hecount
    have hget : get_ssh_socket s host port username env =
        GetResult.mk
          (cancel_close_socket_expire
            { s with ssh_sockets := dstore (sshKey host port username) (pre ++ ({ e with count := e.count + 1 }) :: post) s.ssh_sockets }
            e.sshsock)
          (GetOutcome.success e.sshsock) false := by
      simp only [get_ssh_socket, hlk, hg]
    rw [hget]
    obtain ⟨c1, c2, c3, c4, c5, c6⟩ := cancel_close_socket_expire_spec
      { s with ssh_sockets := dstore (sshKey host port username) (pre ++ ({ e with count := e.count + 1 }) :: post) s.ssh_sockets }
      e.sshsock
    exact ⟨rfl, c1, c5, fun t2 h2 => c6 t2 h2, c2, c4, c3⟩
  · intro hfull hh ha
    have hdial := dial_new_socket_ok s (sshKey host port username) env hh ha
    cases hlk : dlookup (sshKey host port username) s.ssh_sockets with
    | none =>
      have hget : get_ssh_socket s host port username env =
          dial_new_socket s (sshKey host port username) env := by
        simp only [get_ssh_socket, hlk]
      rw [hget, hdial, hlk]
      exact ⟨rfl, rfl, rfl, rfl⟩
    | some entries =>
      have hnone : getFromEntries entries = none :=
        (getFromEntries_none_iff entries).mpr (hfull entries hlk)
      have hget : get_ssh_socket s host port username env =
          dial_new_socket s (sshKey host port username) env := by
        simp only [get_ssh_socket, hlk, hnone]
      rw [hget, hdial, hlk]
      exact ⟨rfl, rfl, rfl, rfl⟩

/-- Witness for C1: the miss case dials entry 1 into the empty cache and
the hit case then reuses transport 1 and increments its count. -/
theorem claim_C1_get_hit_or_dial_witness :
    ((get_ssh_socket initState "h" 22 "u"
        ⟨true, some AuthAttemptResult.ok, [], none⟩).result =
      GetOutcome.success 1 ∧
    (get_ssh_socket
        { initState with
            ssh_sockets := [(sshKey "h" 22 "u", [⟨0, 1, 1⟩])]
            ssh_socket_keys := [(1, sshKey "h" 22 "u")]
            nextId := 2 }
        "h" 22 "u" ⟨true, some AuthAttemptResult.ok, [], none⟩).result =
      GetOutcome.success 1) :=
  ⟨((claim_C1_get_hit_or_dial initState "h" 22 "u"
      ⟨true, some AuthAttemptResult.ok, [], none⟩).2
      (by intro entries h; simp [initState, dlookup] at h) rfl rfl).1,
   ((claim_C1_get_hit_or_dial
      { initState with
          ssh_sockets := [(sshKey "h" 22 "u", [⟨0, 1, 1⟩])]
          ssh_socket_keys := [(1, sshKey "h" 22 "u")]
          nextId := 2 }
      "h" 22 "u" ⟨true, some AuthAttemptResult.ok, [], none⟩).1
      [⟨0, 1, 1⟩] [] ⟨0, 1, 1⟩ [] (by simp [dlookup]) rfl
      (by intro x hx; simp at hx) (by decide)).1⟩

/-- C2: release_ssh_socket on a transport present in the cache.  The
matching entry's count drops by exactly one; when the new count is
nonzero (in particular strictly positive) nothing else changes; when it
reaches zero and no timer is recorded yet, a one-shot close timer with
timeout 1 second is recorded for the transport; when a timer already
exists none is added; and in every case nothing is closed synchronously
(the closed log is untouched and the entry stays in the pool). -/
theorem claim_C2_release_decrements (s : CacheState) (t : Nat) (key : String)
    (entries pre : List Entry) (e : Entry) (post : List Entry)
    (hk : dlookup t s.ssh_socket_keys = some key)
    (he : dlookup key s.ssh_sockets = some entries)
    (hsplit : entries = pre ++ e :: post)
    (hpre : ∀ x ∈ pre, x.sshsock ≠ t)
    (het : e.sshsock = t) :
    ∃ s2, release_ssh_socket s t = some s2 ∧
      s2.ssh_sockets =
        dstore key (pre ++ ({ e with count := e.count - 1 }) :: post) s.ssh_sockets ∧
      s2.ssh_socket_keys = s.ssh_socket_keys ∧
      s2.closed = s.closed ∧
      s2.nextId = s.nextId ∧
      (e.count - 1 ≠ 0 → s2.ssh_socket_timeout = s.ssh_socket_timeout) ∧
      (e.count - 1 = 0 → dlookup t s.ssh_socket_timeout = none →
        s2.ssh_socket_timeout = (t, 1) :: s.ssh_socket_timeout) ∧
      (e.count - 1 = 0 → (dlookup t s.ssh_socket_timeout).isSome →
        s2.ssh_socket_timeout = s.ssh_socket_timeout) := by
  subst hsplit
  have hd := decEntries_app t pre e post hpre het
  by_cases hc : e.count - 1 = 0
  · cases hts : dlookup t s.ssh_socket_timeout with
    | none =>
      refine ⟨{ s with
          ssh_sockets := dstore key (pre ++ ({ e with count := e.count - 1 }) :: post) s.ssh_sockets
          ssh_socket_timeout := (t, 1) :: s.ssh_socket_timeout }, ?_, rfl, rfl, rfl, rfl,
        fun hcc => absurd hc hcc, fun _ _ => rfl, ?_⟩
      · simp only [release_ssh_socket, hk, he, hd, hc]
        rw [if_neg (by simp), if_neg (by simp [hts])]
      · intro _ hsome
        simp at hsome
    | some v =>
      refine ⟨{ s with
          ssh_sockets := dstore key (pre ++ ({ e with count := e.count - 1 }) :: post) s.ssh_sockets },
        ?_, rfl, rfl, rfl, rfl, fun hcc => absurd hc hcc, ?_, fun _ _ => rfl⟩
      · simp only [release_ssh_socket, hk, he, hd, hc]
        rw [if_neg (by simp), if_pos (by simp [hts])]
      · intro _ hnone
        exact absurd hnone (by simp)
  · refine ⟨{ s with
        ssh_sockets := dstore key (pre ++ ({ e with count := e.count - 1 }) :: post) s.ssh_sockets },
      ?_, rfl, rfl, rfl, rfl, fun _ => rfl, fun hcc _ => absurd hcc hc,
      fun hcc _ => absurd hcc hc⟩
    simp only [release_ssh_socket, hk, he, hd]
    rw [if_pos hc]

/-- Witness for C2 at a pool holding one borrowed entry: release drops
its count to zero and records the (transport, 1-second) timer. -/
theorem claim_C2_release_decrements_witness :
    ∃ s2, release_ssh_socket
        { initState with
            ssh_sockets := [(sshKey "h" 22 "u", [⟨0, 1, 1⟩])]
            ssh_socket_keys := [(1, sshKey "h" 22 "u")]
            nextId := 2 } 1 = some s2 ∧
      s2.ssh_sockets =
        dstore (sshKey "h" 22 "u") ([] ++ ({ Entry.mk 0 1 1 with count := (1 : Int) - 1 }) :: [])
          [(sshKey "h" 22 "u", [⟨0, 1, 1⟩])] ∧
      s2.ssh_socket_keys = [(1, sshKey "h" 22 "u")] ∧
      s2.closed = [] ∧
      s2.nextId = 2 ∧
      ((1 : Int) - 1 ≠ 0 → s2.ssh_socket_timeout = []) ∧
      ((1 : Int) - 1 = 0 → dlookup 1 ([] : List (Nat × Nat)) = none →
        s2.ssh_socket_timeout = [(1, 1)]) ∧
      ((1 : Int) - 1 = 0 → (dlookup 1 ([] : List (Nat × Nat))).isSome →
        s2.ssh_socket_timeout = []) :=
  claim_C2_release_decrements
    { initState with
        ssh_sockets := [(sshKey "h" 22 "u", [⟨0, 1, 1⟩])]
        ssh_socket_keys := [(1, sshKey "h" 22 "u")]
        nextId := 2 }
    1 (sshKey "h" 22 "u") [⟨0, 1, 1⟩] [] ⟨0, 1, 1⟩ []
    (by simp [dlookup]) (by simp [dlookup]) rfl (by intro x hx; simp at hx) rfl

/-!  Reachability and the refcount invariant (claim C3).  A borrow list
`b` records, with multiplicity, the transports handed out by get and not
yet released; the invariant couples every entry's count to that
multiplicity and bounds it by MAXCHANNELS. -/

/-- All pool entries across every key, in pool order. -/
def ents (m : List (String × List Entry)) : List Entry :=
  (m.map Prod.snd).join

theorem ents_nil : ents [] = [] := rfl

theorem ents_cons (k : String) (es : List Entry) (m : List (String × List Entry)) :
    ents ((k, es) :: m) = es ++ ents m := by
  simp [ents]

theorem ents_append (m1 m2 : List (String × List Entry)) :
    ents (m1 ++ m2) = ents m1 ++ ents m2 := by
  simp [ents]

theorem mem_ents_iff (e : Entry) (m : List (String × List Entry)) :
    e ∈ ents m ↔ ∃ p ∈ m, e ∈ p.2 := by
  induction m with
  | nil => simp [ents]
  | cons p rest ih =>
    obtain ⟨k, es⟩ := p
    rw [ents_cons, List.mem_append, ih]
    constructor
    · rintro (h | ⟨q, hq, he⟩)
      · exact ⟨(k, es), List.mem_cons_self _ _, h⟩
      · exact ⟨q, List.mem_cons_of_mem _ hq, he⟩
    · rintro ⟨q, hq, he⟩
      rcases List.mem_cons.mp hq with rfl | hq
      · exact Or.inl he
      · exact Or.inr ⟨q, hq, he⟩

/-- Split a list at the first element satisfying a decidable predicate,
given that some element satisfies it. -/
theorem exists_first_split {α : Type} (P : α → Prop) [DecidablePred P]
    (l : List α) (h : ∃ x ∈ l, P x) :
    ∃ pre x post, l = pre ++ x :: post ∧ P x ∧ ∀ y ∈ pre, ¬P y := by
  induction l with
  | nil => simp at h
  | cons a rest ih =>
    by_cases ha : P a
    · exact ⟨[], a, rest, rfl, ha, by simp⟩
    · obtain ⟨x, hx, hPx⟩ := h
      rcases List.mem_cons.mp hx with rfl | hx
      · exact absurd hPx ha
      · obtain ⟨pre, y, post, hsplit, hPy, hpre⟩ := ih ⟨x, hx, hPx⟩
        refine ⟨a :: pre, y, post, by simp [hsplit], hPy, ?_⟩
        intro z hz
        rcases List.mem_cons.mp hz with rfl | hz
        · exact ha
        · exact hpre z hz

/-- With nodup keys, every stored pair is what lookup finds. -/
theorem dlookup_of_mem_nodup {α β : Type} [DecidableEq α] (m : List (α × β))
    (p : α × β) (hnd : (m.map Prod.fst).Nodup) (hp : p ∈ m) :
    dlookup p.1 m = some p.2 := by
  induction m with
  | nil => simp at hp
  | cons a rest ih =>
    obtain ⟨ka, va⟩ := a
    simp only [List.map_cons, List.nodup_cons] at hnd
    rcases List.mem_cons.mp hp with heq | hmem
    · subst heq
      simp [dlookup]
    · have hne : ka ≠ p.1 := by
        intro he
        apply hnd.1
        rw [he]
        exact List.mem_map_of_mem Prod.fst hmem
      simp only [dlookup]
      rw [if_neg hne]
      exact ih hnd.2 hmem

/-- Case analysis of a successful get: either the first-fit hit on an
existing entry, or a dial that appended a fresh entry. -/
theorem get_success_cases (s : CacheState) (host : String) (port : Nat)
    (username : String) (env : GetEnv) (t : Nat)
    (h : (get_ssh_socket s host port username env).result = GetOutcome.success t) :
    (∃ entries entries2,
      dlookup (sshKey host port username) s.ssh_sockets = some entries ∧
      getFromEntries entries = some (entries2, t) ∧
      (get_ssh_socket s host port username env).state =
        cancel_close_socket_expire
          { s with ssh_sockets := dstore (sshKey host port username) entries2 s.ssh_sockets }
          t) ∨
    (t = s.nextId + 1 ∧
      (get_ssh_socket s host port username env).state =
        { s with
            ssh_sockets := dstore (sshKey host port username) (((dlookup (sshKey host port username) s.ssh_sockets).getD []) ++ [⟨s.nextId, s.nextId + 1, 1⟩]) s.ssh_sockets
            ssh_socket_keys := (s.nextId + 1, sshKey host port username) :: s.ssh_socket_keys
            nextId := s.nextId + 2 }) := by
  have hdial : (get_ssh_socket s host port username env =
      dial_new_socket s (sshKey host port username) env) →
      (t = s.nextId + 1 ∧
        (get_ssh_socket s host port username env).state =
          { s with
              ssh_sockets := dstore (sshKey host port username) (((dlookup (sshKey host port username) s.ssh_sockets).getD []) ++ [⟨s.nextId, s.nextId + 1, 1⟩]) s.ssh_sockets
              ssh_socket_keys := (s.nextId + 1, sshKey host port username) :: s.ssh_socket_keys
              nextId := s.nextId + 2 }) := by
    intro heq
    rw [heq] at h ⊢
    cases hh : env.handshakeOk with
    | false =>
      have : (dial_new_socket s (sshKey host port username) env).result =
          GetOutcome.failure BuildErr.transportError := by
        simp only [dial_new_socket, hh, if_pos]
      rw [this] at h
      exact absurd h (by simp)
    | true =>
      cases ha : (authenticate env.password env.agentKeys env.privateKey).2 with
      | error e2 =>
        have : (dial_new_socket s (sshKey host port username) env).result =
            GetOutcome.failure e2 := by
          simp only [dial_new_socket, hh, ha]
          rw [if_neg (by decide)]
        rw [this] at h
        exact absurd h (by simp)
      | ok u =>
        cases u
        rw [dial_new_socket_ok s (sshKey host port username) env hh ha] at h ⊢
        have ht : t = s.nextId + 1 := by
          simp at h
          exact h.symm
        exact ⟨ht, rfl⟩
  cases hlk : dlookup (sshKey host port username) s.ssh_sockets with
  | none =>
    have hd := hdial (by simp only [get_ssh_socket, hlk])
    rw [hlk] at hd
    exact Or.inr hd
  | some entries =>
    cases hg : getFromEntries entries with
    | none =>
      have hd := hdial (by simp only [get_ssh_socket, hlk, hg])
      rw [hlk] at hd
      exact Or.inr hd
    | some r =>
      obtain ⟨entries2, t2⟩ := r
      have hget : get_ssh_socket s host port username env =
          GetResult.mk
            (cancel_close_socket_expire
              { s with ssh_sockets := dstore (sshKey host port username) entries2 s.ssh_sockets }
              t2)
            (GetOutcome.success t2) false := by
        simp only [get_ssh_socket, hlk, hg]
      rw [hget] at h
      have ht : t2 = t := by
        simp at h
        exact h
      subst ht
      exact Or.inl ⟨entries, entries2, rfl, hg, by rw [hget]⟩

/-- A failing get only advances the handle counter. -/
theorem get_failure_state (s : CacheState) (host : String) (port : Nat)
    (username : String) (env : GetEnv) (e : BuildErr)
    (h : (get_ssh_socket s host port username env).result = GetOutcome.failure e) :
    (get_ssh_socket s host port username env).state =
      { s with nextId := s.nextId + 2 } := by
  cases hlk : dlookup (sshKey host port username) s.ssh_sockets with
  | none =>
    have hget : get_ssh_socket s host port username env =
        dial_new_socket s (sshKey host port username) env := by
      simp only [get_ssh_socket, hlk]
    rw [hget] at h ⊢
    exact (dial_new_socket_failure s _ env e h).1
  | some entries =>
    cases hg : getFromEntries entries with
    | none =>
      have hget : get_ssh_socket s host port username env =
          dial_new_socket s (sshKey host port username) env := by
        simp only [get_ssh_socket, hlk, hg]
      rw [hget] at h ⊢
      exact (dial_new_socket_failure s _ env e h).1
    | some r =>
      obtain ⟨entries2, t2⟩ := r
      have hget : get_ssh_socket s host port username env =
          GetResult.mk
            (cancel_close_socket_expire
              { s with ssh_sockets := dstore (sshKey host port username) entries2 s.ssh_sockets }
              t2)
            (GetOutcome.success t2) false := by
        simp only [get_ssh_socket, hlk, hg]
      rw [hget] at h
      simp at h

/-- The cache invariant coupling the pool to the multiset `b` of
outstanding borrows: keys are unique, transports are unique and below the
handle counter, each entry's count is exactly the multiplicity of its
transport among the borrows and never exceeds MAXCHANNELS, the reverse
map sends every pooled transport to its key, and every borrowed transport
is pooled. -/
structure CacheInv (s : CacheState) (b : List Nat) : Prop where
  keysNodup : (s.ssh_sockets.map Prod.fst).Nodup
  socksNodup : ((ents s.ssh_sockets).map Entry.sshsock).Nodup
  socksFresh : ∀ e ∈ ents s.ssh_sockets, e.sshsock < s.nextId
  counts : ∀ e ∈ ents s.ssh_sockets, e.count = (b.count e.sshsock : Int)
  cap : ∀ e ∈ ents s.ssh_sockets, e.count ≤ MAXCHANNELS
  revmap : ∀ p ∈ s.ssh_sockets, ∀ e ∈ p.2, dlookup e.sshsock s.ssh_socket_keys = some p.1
  borrowed : ∀ t ∈ b, ∃ p ∈ s.ssh_sockets, ∃ e ∈ p.2, e.sshsock = t

theorem inv_init : CacheInv initState [] := by
  constructor <;> simp [initState, ents]

theorem ents_update_middle (m1 m2 : List (String × List Entry)) (k : String)
    (pre post : List Entry) (x : Entry) :
    ents (m1 ++ (k, pre ++ x :: post) :: m2) =
      (ents m1 ++ pre) ++ x :: (post ++ ents m2) := by
  simp [ents_append, ents_cons]

/-- Shared preservation core: the pool changes only by replacing one
entry x (its position and transport kept) by y, and b changes to b2 in a
way compatible with the count at x's transport. Covers both the get hit
(increment, borrow pushed) and the release (decrement, borrow erased). -/
theorem inv_modify_one (s s2 : CacheState) (b b2 : List Nat)
    (m1 m2 : List (String × List Entry)) (k : String)
    (pre post : List Entry) (x y : Entry)
    (hs : CacheInv s b)
    (hpoolsOld : s.ssh_sockets = m1 ++ (k, pre ++ x :: post) :: m2)
    (hpoolsNew : s2.ssh_sockets = m1 ++ (k, pre ++ y :: post) :: m2)
    (hkeys : s2.ssh_socket_keys = s.ssh_socket_keys)
    (hnext : s2.nextId = s.nextId)
    (hysock : y.sshsock = x.sshsock)
    (hycount : y.count = (b2.count x.sshsock : Int))
    (hycap : y.count ≤ MAXCHANNELS)
    (hcount_other : ∀ z : Nat, z ≠ x.sshsock → b2.count z = b.count z)
    (hb2 : ∀ t2 ∈ b2, t2 ∈ b ∨ t2 = x.sshsock) :
    CacheInv s2 b2 := by
  have hentsOld : ents s.ssh_sockets = (ents m1 ++ pre) ++ x :: (post ++ ents m2) := by
    rw [hpoolsOld, ents_update_middle]
  have hentsNew : ents s2.ssh_sockets = (ents m1 ++ pre) ++ y :: (post ++ ents m2) := by
    rw [hpoolsNew, ents_update_middle]
  have hxmem : x ∈ ents s.ssh_sockets := by
    rw [hentsOld]
    exact List.mem_append_right _ (List.mem_cons_self _ _)
  have hABmem : ∀ e, e ∈ ents m1 ++ pre ∨ e ∈ post ++ ents m2 → e ∈ ents s.ssh_sockets := by
    intro e he
    rw [hentsOld]
    rcases he with he | he
    · exact List.mem_append_left _ he
    · exact List.mem_append_right _ (List.mem_cons_of_mem _ he)
  have hABne : ∀ e, e ∈ ents m1 ++ pre ∨ e ∈ post ++ ents m2 → e.sshsock ≠ x.sshsock := by
    have hnd := hs.socksNodup
    rw [hentsOld] at hnd
    rw [show ((ents m1 ++ pre) ++ x :: (post ++ ents m2)).map Entry.sshsock =
        (ents m1 ++ pre).map Entry.sshsock ++
          x.sshsock :: (post ++ ents m2).map Entry.sshsock from by simp] at hnd
    rw [List.nodup_middle, List.nodup_cons] at hnd
    intro e he heq
    apply hnd.1
    rw [← heq]
    rcases he with he | he
    · exact List.mem_append_left _ (List.mem_map_of_mem Entry.sshsock he)
    · exact List.mem_append_right _ (List.mem_map_of_mem Entry.sshsock he)
  have hmemNew : ∀ e ∈ ents s2.ssh_sockets,
      (e ∈ ents m1 ++ pre ∨ e ∈ post ++ ents m2) ∨ e = y := by
    intro e he
    rw [hentsNew] at he
    rcases List.mem_append.mp he with he | he
    · exact Or.inl (Or.inl he)
    · rcases List.mem_cons.mp he with rfl | he
      · exact Or.inr rfl
      · exact Or.inl (Or.inr he)
  constructor
  · have hk2 : s2.ssh_sockets.map Prod.fst = s.ssh_sockets.map Prod.fst := by
      rw [hpoolsOld, hpoolsNew]
      simp
    rw [hk2]
    exact hs.keysNodup
  · have hsock2 : (ents s2.ssh_sockets).map Entry.sshsock =
        (ents s.ssh_sockets).map Entry.sshsock := by
      rw [hentsOld, hentsNew]
      simp [hysock]
    rw [hsock2]
    exact hs.socksNodup
  · intro e he
    rw [hnext]
    rcases hmemNew e he with hAB | rfl
    · exact hs.socksFresh e (hABmem e hAB)
    · rw [hysock]
      exact hs.socksFresh x hxmem
  · intro e he
    rcases hmemNew e he with hAB | rfl
    · rw [hs.counts e (hABmem e hAB), hcount_other e.sshsock (hABne e hAB)]
    · rw [hysock, hycount]
  · intro e he
    rcases hmemNew e he with hAB | rfl
    · exact hs.cap e (hABmem e hAB)
    · exact hycap
  · intro p hp e he
    rw [hkeys]
    rw [hpoolsNew] at hp
    have hpairOld : (k, pre ++ x :: post) ∈ s.ssh_sockets := by
      rw [hpoolsOld]
      exact List.mem_append_right _ (List.mem_cons_self _ _)
    rcases List.mem_append.mp hp with hp1 | hp2
    · exact hs.revmap p (by rw [hpoolsOld]; exact List.mem_append_left _ hp1) e he
    · rcases List.mem_cons.mp hp2 with rfl | hp3
      · rcases List.mem_append.mp he with he1 | he2
        · exact hs.revmap _ hpairOld e (List.mem_append_left _ he1)
        · rcases List.mem_cons.mp he2 with rfl | he3
          · rw [hysock]
            exact hs.revmap _ hpairOld x
              (List.mem_append_right _ (List.mem_cons_self _ _))
          · exact hs.revmap _ hpairOld e
              (List.mem_append_right _ (List.mem_cons_of_mem _ he3))
      · refine hs.revmap p ?_ e he
        rw [hpoolsOld]
        exact List.mem_append_right _ (List.mem_cons_of_mem _ hp3)
  · intro t2 ht2
    have hyPair : (k, pre ++ y :: post) ∈ s2.ssh_sockets := by
      rw [hpoolsNew]
      exact List.mem_append_right _ (List.mem_cons_self _ _)
    have hyIn : y ∈ (k, pre ++ y :: post).2 :=
      List.mem_append_right _ (List.mem_cons_self _ _)
    rcases hb2 t2 ht2 with htb | rfl
    · obtain ⟨p, hp, e, he, hsock⟩ := hs.borrowed t2 htb
      rw [hpoolsOld] at hp
      rcases List.mem_append.mp hp with hp1 | hp2
      · exact ⟨p, by rw [hpoolsNew]; exact List.mem_append_left _ hp1, e, he, hsock⟩
      · rcases List.mem_cons.mp hp2 with rfl | hp3
        · rcases List.mem_append.mp he with he1 | he2
          · exact ⟨_, hyPair, e, List.mem_append_left _ he1, hsock⟩
          · rcases List.mem_cons.mp he2 with rfl | he3
            · exact ⟨_, hyPair, y, hyIn, by rw [hysock]; exact hsock⟩
            · exact ⟨_, hyPair, e,
                List.mem_append_right _ (List.mem_cons_of_mem _ he3), hsock⟩
        · refine ⟨p, ?_, e, he, hsock⟩
          rw [hpoolsNew]
          exact List.mem_append_right _ (List.mem_cons_of_mem _ hp3)
    · exact ⟨_, hyPair, y, hyIn, hysock⟩

/-- The pool, reverse-map and handle-counter effect of a successful
release: only the key's entry list is restored decremented. -/
theorem release_state (s : CacheState) (t : Nat) (key : String)
    (entries entries2 : List Entry) (c : Int)
    (hk : dlookup t s.ssh_socket_keys = some key)
    (he : dlookup key s.ssh_sockets = some entries)
    (hd : decEntries t entries = some (entries2, c)) :
    ∃ s2, release_ssh_socket s t = some s2 ∧
      s2.ssh_sockets = dstore key entries2 s.ssh_sockets ∧
      s2.ssh_socket_keys = s.ssh_socket_keys ∧
      s2.nextId = s.nextId := by
  simp only [release_ssh_socket, hk, he, hd]
  by_cases hc : c ≠ 0
  · rw [if_pos hc]
    exact ⟨_, rfl, rfl, rfl, rfl⟩
  · rw [if_neg hc]
    cases hts : (dlookup t s.ssh_socket_timeout).isSome with
    | true =>
      rw [if_pos rfl]
      exact ⟨_, rfl, rfl, rfl, rfl⟩
    | false =>
      rw [if_neg Bool.false_ne_true]
      exact ⟨_, rfl, rfl, rfl, rfl⟩

/-- Invariant preservation by a paired release: the borrowed transport's
entry exists, release decrements it, and the invariant carries to the
erased borrow list. -/
theorem inv_release (s : CacheState) (b : List Nat) (t : Nat)
    (hs : CacheInv s b) (htb : t ∈ b) :
    CacheInv ((release_ssh_socket s t).getD s) (b.erase t) := by
  obtain ⟨p, hpmem, e0, he0, hsock0⟩ := hs.borrowed t htb
  have hk : dlookup t s.ssh_socket_keys = some p.1 := by
    have h := hs.revmap p hpmem e0 he0
    rw [hsock0] at h
    exact h
  have he : dlookup p.1 s.ssh_sockets = some p.2 :=
    dlookup_of_mem_nodup s.ssh_sockets p hs.keysNodup hpmem
  obtain ⟨pre, x, post, hsplit, hx, hpre⟩ :=
    exists_first_split (fun y => y.sshsock = t) p.2 ⟨e0, he0, hsock0⟩
  have hd : decEntries t p.2 =
      some (pre ++ ({ x with count := x.count - 1 }) :: post, x.count - 1) := by
    rw [hsplit]
    exact decEntries_app t pre x post hpre hx
  obtain ⟨s2, hrel, hpools, hkeys, hnext⟩ := release_state s t p.1 p.2 _ _ hk he hd
  rw [hrel]
  show CacheInv s2 (b.erase t)
  obtain ⟨m1, m2, hm, hm1, hm2, hst⟩ := dstore_split p.1 p.2 s.ssh_sockets hs.keysNodup he
  have hxmem : x ∈ ents s.ssh_sockets := by
    rw [(mem_ents_iff x s.ssh_sockets)]
    exact ⟨p, hpmem, by rw [hsplit]; exact List.mem_append_right _ (List.mem_cons_self _ _)⟩
  have hposcount : 0 < b.count t := List.count_pos_iff.mpr htb
  have hxcount : x.count = (b.count t : Int) := by
    have h := hs.counts x hxmem
    rw [hx] at h
    exact h
  refine inv_modify_one s s2 b (b.erase t) m1 m2 p.1 pre post x
    ({ x with count := x.count - 1 }) hs ?_ ?_ hkeys hnext rfl ?_ ?_ ?_ ?_
  · rw [hm, hsplit]
  · rw [hpools, hst]
  · rw [hx, List.count_erase_self]
    show x.count - 1 = ((b.count t - 1 : Nat) : Int)
    omega
  · have h := hs.cap x hxmem
    show x.count - 1 ≤ MAXCHANNELS
    exact le_trans (by omega) h
  · intro z hz
    rw [hx] at hz
    exact List.count_erase_of_ne hz b
  · intro t2 ht2
    exact Or.inl (List.mem_of_mem_erase ht2)

/-- A failing get preserves the invariant: only the handle counter moves. -/
theorem inv_get_failure (s : CacheState) (b : List Nat) (host : String) (port : Nat)
    (username : String) (env : GetEnv) (e : BuildErr) (hs : CacheInv s b)
    (h : (get_ssh_socket s host port username env).result = GetOutcome.failure e) :
    CacheInv (get_ssh_socket s host port username env).state b := by
  rw [get_failure_state s host port username env e h]
  refine ⟨hs.keysNodup, hs.socksNodup, ?_, hs.counts, hs.cap, hs.revmap, hs.borrowed⟩
  intro e2 he2
  have h2 := hs.socksFresh e2 he2
  show e2.sshsock < s.nextId + 2
  omega

/-- The dialed transport handle is fresh: not borrowed, not pooled. -/
theorem fresh_socket_facts (s : CacheState) (b : List Nat) (hs : CacheInv s b) :
    (s.nextId + 1) ∉ b ∧ (∀ e ∈ ents s.ssh_sockets, e.sshsock ≠ s.nextId + 1) ∧
      b.count (s.nextId + 1) = 0 := by
  have hne : ∀ e ∈ ents s.ssh_sockets, e.sshsock ≠ s.nextId + 1 := by
    intro e he hsock
    have hf := hs.socksFresh e he
    rw [hsock] at hf
    omega
  have hnb : (s.nextId + 1) ∉ b := by
    intro hmem
    obtain ⟨p, hp, e, he, hsock⟩ := hs.borrowed _ hmem
    exact hne e ((mem_ents_iff e _).mpr ⟨p, hp, he⟩) hsock
  exact ⟨hnb, hne, List.count_eq_zero_of_not_mem hnb⟩

/-- Invariant preservation by a dial under a key with no pool list yet:
the pair (key, [fresh entry]) is appended. -/
theorem inv_dial_none (s : CacheState) (b : List Nat) (key : String)
    (hs : CacheInv s b) (hlk : dlookup key s.ssh_sockets = none)
    (s2 : CacheState)
    (hpools : s2.ssh_sockets = s.ssh_sockets ++ [(key, [⟨s.nextId, s.nextId + 1, 1⟩])])
    (hkeys : s2.ssh_socket_keys = (s.nextId + 1, key) :: s.ssh_socket_keys)
    (hnext : s2.nextId = s.nextId + 2) :
    CacheInv s2 ((s.nextId + 1) :: b) := by
  obtain ⟨hnb, hne, hcount0⟩ := fresh_socket_facts s b hs
  have hkeynotin : key ∉ s.ssh_sockets.map Prod.fst := by
    intro hmem
    obtain ⟨p, hp, hfst⟩ := List.mem_map.mp hmem
    exact ((dlookup_eq_none_iff key s.ssh_sockets).mp hlk) p hp hfst
  have hents2 : ents s2.ssh_sockets =
      ents s.ssh_sockets ++ [⟨s.nextId, s.nextId + 1, 1⟩] := by
    rw [hpools, ents_append]
    simp [ents]
  constructor
  · rw [hpools, List.map_append]
    refine List.Nodup.append hs.keysNodup (by simp) ?_
    intro a ha hb
    simp only [List.map_cons, List.map_nil, List.mem_singleton] at hb
    subst hb
    exact hkeynotin ha
  · rw [hents2, List.map_append]
    refine List.Nodup.append hs.socksNodup (by simp) ?_
    intro a ha hb
    simp only [List.map_cons, List.map_nil, List.mem_singleton] at hb
    subst hb
    obtain ⟨e2, he2, hs2⟩ := List.mem_map.mp ha
    exact hne e2 he2 hs2
  · intro e2 he2
    rw [hents2] at he2
    rw [hnext]
    rcases List.mem_append.mp he2 with he3 | he3
    · have h2 := hs.socksFresh e2 he3
      omega
    · rw [List.mem_singleton.mp he3]
      show s.nextId + 1 < s.nextId + 2
      omega
  · intro e2 he2
    rw [hents2] at he2
    rcases List.mem_append.mp he2 with he3 | he3
    · rw [hs.counts e2 he3, List.count_cons_of_ne (hne e2 he3)]
    · rw [List.mem_singleton.mp he3]
      show (1 : Int) = (((s.nextId + 1) :: b).count (s.nextId + 1) : Int)
      rw [List.count_cons_self, hcount0]
      decide
  · intro e2 he2
    rw [hents2] at he2
    rcases List.mem_append.mp he2 with he3 | he3
    · exact hs.cap e2 he3
    · rw [List.mem_singleton.mp he3]
      show (1 : Int) ≤ MAXCHANNELS
      decide
  · intro p hp e2 he2
    rw [hkeys]
    rw [hpools] at hp
    rcases List.mem_append.mp hp with hp1 | hp2
    · have hmem : e2 ∈ ents s.ssh_sockets := (mem_ents_iff e2 _).mpr ⟨p, hp1, he2⟩
      have hne2 : s.nextId + 1 ≠ e2.sshsock := fun heq => hne e2 hmem heq.symm
      simp only [dlookup]
      rw [if_neg hne2]
      exact hs.revmap p hp1 e2 he2
    · rw [List.mem_singleton.mp hp2] at he2 ⊢
      rw [List.mem_singleton.mp he2]
      simp [dlookup]
  · intro t2 ht2
    rcases List.mem_cons.mp ht2 with rfl | ht3
    · refine ⟨(key, [⟨s.nextId, s.nextId + 1, 1⟩]), ?_, ⟨s.nextId, s.nextId + 1, 1⟩,
        List.mem_singleton.mpr rfl, rfl⟩
      rw [hpools]
      exact List.mem_append_right _ (List.mem_singleton.mpr rfl)
    · obtain ⟨p, hp, e2, he2, hsock⟩ := hs.borrowed t2 ht3
      refine ⟨p, ?_, e2, he2, hsock⟩
      rw [hpools]
      exact List.mem_append_left _ hp

/-- Invariant preservation by a dial under a key that already has a pool
list (every entry full): the fresh entry is appended to that list. -/
theorem inv_dial_some (s : CacheState) (b : List Nat) (key : String)
    (entries : List Entry) (m1 m2 : List (String × List Entry))
    (hs : CacheInv s b)
    (hm : s.ssh_sockets = m1 ++ (key, entries) :: m2)
    (s2 : CacheState)
    (hpools : s2.ssh_sockets =
      m1 ++ (key, entries ++ [⟨s.nextId, s.nextId + 1, 1⟩]) :: m2)
    (hkeys : s2.ssh_socket_keys = (s.nextId + 1, key) :: s.ssh_socket_keys)
    (hnext : s2.nextId = s.nextId + 2) :
    CacheInv s2 ((s.nextId + 1) :: b) := by
  obtain ⟨hnb, hne, hcount0⟩ := fresh_socket_facts s b hs
  have hentsOld : ents s.ssh_sockets = (ents m1 ++ entries) ++ ents m2 := by
    rw [hm]
    simp [ents_append, ents_cons]
  have hentsNew : ents s2.ssh_sockets =
      (ents m1 ++ entries) ++ (⟨s.nextId, s.nextId + 1, 1⟩ : Entry) :: ents m2 := by
    rw [hpools]
    simp [ents_append, ents_cons]
  have hmemNew : ∀ e2 ∈ ents s2.ssh_sockets,
      e2 ∈ ents s.ssh_sockets ∨ e2 = (⟨s.nextId, s.nextId + 1, 1⟩ : Entry) := by
    intro e2 he2
    rw [hentsNew] at he2
    rcases List.mem_append.mp he2 with he3 | he3
    · exact Or.inl (by rw [hentsOld]; exact List.mem_append_left _ he3)
    · rcases List.mem_cons.mp he3 with rfl | he4
      · exact Or.inr rfl
      · exact Or.inl (by rw [hentsOld]; exact List.mem_append_right _ he4)
  have hmemOld : ∀ e2 ∈ ents s.ssh_sockets, e2 ∈ ents s2.ssh_sockets := by
    intro e2 he2
    rw [hentsOld] at he2
    rw [hentsNew]
    rcases List.mem_append.mp he2 with he3 | he3
    · exact List.mem_append_left _ he3
    · exact List.mem_append_right _ (List.mem_cons_of_mem _ he3)
  constructor
  · have hk2 : s2.ssh_sockets.map Prod.fst = s.ssh_sockets.map Prod.fst := by
      rw [hm, hpools]
      simp
    rw [hk2]
    exact hs.keysNodup
  · rw [hentsNew]
    rw [show (((ents m1 ++ entries) ++
        (⟨s.nextId, s.nextId + 1, 1⟩ : Entry) :: ents m2).map Entry.sshsock) =
        (ents m1 ++ entries).map Entry.sshsock ++
          (s.nextId + 1) :: (ents m2).map Entry.sshsock from by simp] at *
    rw [List.nodup_middle, List.nodup_cons]
    constructor
    · intro hmem
      rcases List.mem_append.mp hmem with hm3 | hm3
      all_goals
        obtain ⟨e2, he2, hs2⟩ := List.mem_map.mp hm3
        refine hne e2 ?_ hs2
        rw [hentsOld]
      · exact List.mem_append_left _ he2
      · exact List.mem_append_right _ he2
    · have h2 := hs.socksNodup
      rw [hentsOld] at h2
      simpa using h2
  · intro e2 he2
    rw [hnext]
    rcases hmemNew e2 he2 with he3 | rfl
    · have h2 := hs.socksFresh e2 he3
      omega
    · show s.nextId + 1 < s.nextId + 2
      omega
  · intro e2 he2
    rcases hmemNew e2 he2 with he3 | rfl
    · rw [hs.counts e2 he3, List.count_cons_of_ne (hne e2 he3)]
    · show (1 : Int) = (((s.nextId + 1) :: b).count (s.nextId + 1) : Int)
      rw [List.count_cons_self, hcount0]
      decide
  · intro e2 he2
    rcases hmemNew e2 he2 with he3 | rfl
    · exact hs.cap e2 he3
    · show (1 : Int) ≤ MAXCHANNELS
      decide
  · intro p hp e2 he2
    rw [hkeys]
    rw [hpools] at hp
    have hmidOld : (key, entries) ∈ s.ssh_sockets := by
      rw [hm]
      exact List.mem_append_right _ (List.mem_cons_self _ _)
    have hlkcons : ∀ e3 : Entry, e3 ∈ ents s.ssh_sockets →
        dlookup e3.sshsock ((s.nextId + 1, key) :: s.ssh_socket_keys) =
          dlookup e3.sshsock s.ssh_socket_keys := by
      intro e3 he3
      have hne2 : s.nextId + 1 ≠ e3.sshsock := fun heq => hne e3 he3 heq.symm
      simp only [dlookup]
      rw [if_neg hne2]
    rcases List.mem_append.mp hp with hp1 | hp2
    · have hmem : e2 ∈ ents s.ssh_sockets :=
        (mem_ents_iff e2 _).mpr ⟨p, by rw [hm]; exact List.mem_append_left _ hp1, he2⟩
      rw [hlkcons e2 hmem]
      exact hs.revmap p (by rw [hm]; exact List.mem_append_left _ hp1) e2 he2
    · rcases List.mem_cons.mp hp2 with rfl | hp3
      · rcases List.mem_append.mp he2 with he3 | he3
        · have hmem : e2 ∈ ents s.ssh_sockets :=
            (mem_ents_iff e2 _).mpr ⟨(key, entries), hmidOld, he3⟩
          rw [hlkcons e2 hmem]
          exact hs.revmap (key, entries) hmidOld e2 he3
        · rw [List.mem_singleton.mp he3]
          simp [dlookup]
      · have hmem : e2 ∈ ents s.ssh_sockets :=
          (mem_ents_iff e2 _).mpr
            ⟨p, by rw [hm]; exact List.mem_append_right _ (List.mem_cons_of_mem _ hp3), he2⟩
        rw [hlkcons e2 hmem]
        refine hs.revmap p ?_ e2 he2
        rw [hm]
        exact List.mem_append_right _ (List.mem_cons_of_mem _ hp3)
  · intro t2 ht2
    have hmidNew : (key, entries ++ [(⟨s.nextId, s.nextId + 1, 1⟩ : Entry)]) ∈
        s2.ssh_sockets := by
      rw [hpools]
      exact List.mem_append_right _ (List.mem_cons_self _ _)
    rcases List.mem_cons.mp ht2 with rfl | ht3
    · exact ⟨_, hmidNew, ⟨s.nextId, s.nextId + 1, 1⟩,
        List.mem_append_right _ (List.mem_singleton.mpr rfl), rfl⟩
    · obtain ⟨p, hp, e2, he2, hsock⟩ := hs.borrowed t2 ht3
      rw [hm] at hp
      rcases List.mem_append.mp hp with hp1 | hp2
      · refine ⟨p, ?_, e2, he2, hsock⟩
        rw [hpools]
        exact List.mem_append_left _ hp1
      · rcases List.mem_cons.mp hp2 with rfl | hp3
        · exact ⟨_, hmidNew, e2, List.mem_append_left _ he2, hsock⟩
        · refine ⟨p, ?_, e2, he2, hsock⟩
          rw [hpools]
          exact List.mem_append_right _ (List.mem_cons_of_mem _ hp3)

/-- Invariant preservation by a successful get, pushing the returned
transport on the borrow list. -/
theorem inv_get_success (s : CacheState) (b : List Nat) (host : String) (port : Nat)
    (username : String) (env : GetEnv) (t : Nat) (hs : CacheInv s b)
    (h : (get_ssh_socket s host port username env).result = GetOutcome.success t) :
    CacheInv (get_ssh_socket s host port username env).state (t :: b) := by
  rcases get_success_cases s host port username env t h with
    ⟨entries, entries2, hlk, hg, hstate⟩ | ⟨ht, hstate⟩
  · obtain ⟨pre, e, post, hsplit, hpre, hecount, hentries2, hts⟩ :=
      getFromEntries_inv entries entries2 t hg
    obtain ⟨m1, m2, hm, hm1, hm2, hst⟩ :=
      dstore_split (sshKey host port username) entries s.ssh_sockets hs.keysNodup hlk
    obtain ⟨c1, c2, c3, c4, c5, c6⟩ := cancel_close_socket_expire_spec
      { s with ssh_sockets := dstore (sshKey host port username) entries2 s.ssh_sockets } t
    have hemem : e ∈ ents s.ssh_sockets := by
      rw [mem_ents_iff]
      refine ⟨(sshKey host port username, entries), dlookup_mem _ _ _ hlk, ?_⟩
      rw [hsplit]
      exact List.mem_append_right _ (List.mem_cons_self _ _)
    have hecount2 : e.count = (b.count e.sshsock : Int) := hs.counts e hemem
    subst hts
    refine inv_modify_one s _ b (e.sshsock :: b) m1 m2 (sshKey host port username)
      pre post e ({ e with count := e.count + 1 }) hs ?_ ?_ ?_ ?_ rfl ?_ ?_ ?_ ?_
    · rw [hm, hsplit]
    · rw [hstate, c1]
      show dstore (sshKey host port username) entries2 s.ssh_sockets = _
      rw [hst entries2, hentries2]
    · rw [hstate, c2]
    · rw [hstate, c4]
    · show e.count + 1 = ((e.sshsock :: b).count e.sshsock : Int)
      rw [List.count_cons_self, hecount2]
      push_cast
      ring
    · show e.count + 1 ≤ MAXCHANNELS
      exact Int.add_one_le_iff.mpr hecount
    · intro z hz
      exact List.count_cons_of_ne hz b
    · intro t2 ht2
      rcases List.mem_cons.mp ht2 with rfl | ht3
      · exact Or.inr rfl
      · exact Or.inl ht3
  · subst ht
    cases hlk : dlookup (sshKey host port username) s.ssh_sockets with
    | none =>
      rw [hlk] at hstate
      refine inv_dial_none s b (sshKey host port username) hs hlk _ ?_ ?_ ?_
      · rw [hstate]
        show dstore (sshKey host port username)
            (([] : List Entry) ++ [⟨s.nextId, s.nextId + 1, 1⟩]) s.ssh_sockets = _
        rw [List.nil_append]
        exact dstore_append _ _ _ hlk
      · rw [hstate]
      · rw [hstate]
    | some entries =>
      rw [hlk] at hstate
      obtain ⟨m1, m2, hm, hm1, hm2, hst⟩ :=
        dstore_split (sshKey host port username) entries s.ssh_sockets hs.keysNodup hlk
      refine inv_dial_some s b (sshKey host port username) entries m1 m2 hs hm _ ?_ ?_ ?_
      · rw [hstate]
        show dstore (sshKey host port username)
            ((some entries).getD [] ++ [⟨s.nextId, s.nextId + 1, 1⟩]) s.ssh_sockets = _
        rw [show (some entries).getD ([] : List Entry) = entries from rfl]
        exact hst _
      · rw [hstate]
      · rw [hstate]

/-- Reachable cache configurations: starting from the empty cache, any
sequence of get calls (successful ones push their transport on the
borrow list, failing ones leave it unchanged) and paired releases (each
release consumes one outstanding borrow of that transport). -/
inductive Reach : CacheState → List Nat → Prop where
  | init : Reach initState []
  | get (s : CacheState) (b : List Nat) (host : String) (port : Nat)
      (username : String) (env : GetEnv) (t : Nat) :
      Reach s b →
      (get_ssh_socket s host port username env).result = GetOutcome.success t →
      Reach (get_ssh_socket s host port username env).state (t :: b)
  | getFail (s : CacheState) (b : List Nat) (host : String) (port : Nat)
      (username : String) (env : GetEnv) (e : BuildErr) :
      Reach s b →
      (get_ssh_socket s host port username env).result = GetOutcome.failure e →
      Reach (get_ssh_socket s host port username env).state b
  | rel (s : CacheState) (b : List Nat) (t : Nat) :
      Reach s b → t ∈ b →
      Reach ((release_ssh_socket s t).getD s) (b.erase t)

/-- Every reachable configuration satisfies the cache invariant. -/
theorem reach_inv (s : CacheState) (b : List Nat) (h : Reach s b) : CacheInv s b := by
  induction h with
  | init => exact inv_init
  | get s b host port username env t hr hres ih =>
    exact inv_get_success s b host port username env t ih hres
  | getFail s b host port username env e hr hres ih =>
    exact inv_get_failure s b host port username env e ih hres
  | rel s b t hr htb ih =>
    exact inv_release s b t ih htb

/-- C3: in every reachable cache configuration — any sequence of get and
release operations where each release is paired with a prior get of the
same transport — every pool entry's in-use channel count satisfies
0 ≤ count ≤ MAXCHANNELS, MAXCHANNELS = 8; and get never increments an
entry whose count has reached MAXCHANNELS (the first-fit scan only ever
increments an entry strictly below the cap). -/
theorem claim_C3_count_bounds (s : CacheState) (b : List Nat) (h : Reach s b) :
    (∀ p ∈ s.ssh_sockets, ∀ e ∈ p.2, 0 ≤ e.count ∧ e.count ≤ MAXCHANNELS) ∧
    MAXCHANNELS = 8 ∧
    (∀ l l2 t2, getFromEntries l = some (l2, t2) →
      ∃ pre x post, l = pre ++ x :: post ∧ x.count < MAXCHANNELS ∧
        l2 = pre ++ ({ x with count := x.count + 1 }) :: post) := by
  have hinv := reach_inv s b h
  refine ⟨?_, rfl, ?_⟩
  · intro p hp e he
    have hmem : e ∈ ents s.ssh_sockets := (mem_ents_iff e _).mpr ⟨p, hp, he⟩
    constructor
    · rw [hinv.counts e hmem]
      exact Int.ofNat_nonneg _
    · exact hinv.cap e hmem
  · intro l l2 t2 hg
    obtain ⟨pre, x, post, hsplit, _, hx, hl2, _⟩ := getFromEntries_inv l l2 t2 hg
    exact ⟨pre, x, post, hsplit, hx, hl2⟩

/-- Witness for C3 at a concrete reachable state: one get then a paired
release on the empty cache leaves the single entry with count 0, inside
the bounds. -/
theorem claim_C3_count_bounds_witness :
    0 ≤ (Entry.mk 0 1 0).count ∧ (Entry.mk 0 1 0).count ≤ MAXCHANNELS :=
  (claim_C3_count_bounds _ _
    (Reach.rel _ _ 1
      (Reach.get initState [] "h" 22 "u" ⟨true, some AuthAttemptResult.ok, [], none⟩ 1
        Reach.init rfl)
      (List.mem_singleton.mpr rfl))).1
    (sshKey "h" 22 "u", [Entry.mk 0 1 0]) (by decide) (Entry.mk 0 1 0) (by decide)

end Sshutil
